import Mathlib

/-!
The libtcod xterm renderer, `renderer_xterm.c`.

A shallow embedding of `ucs4_to_utf8`, `xterm_present`, `xterm_cleanup`,
`xterm_destructor` and `TCOD_renderer_init_xterm`, followed by the properties
established about them.

Conventions of the embedding.

* A byte is a `Nat` below 256; an output stream is a `List Nat`.
* A C `int` is an `Int`.  The only place where its width matters is the
  bitwise AND of a possibly negative `int` with `0x10FFFF`; there the 32-bit
  two's complement pattern `ch % 2^32` is used explicitly.
* Every `fprintf` of the source is one `Emit` event; `Emit.bytes` is the
  expansion of its format string, and the stream written is the concatenation
  of the bytes of the events in the order emitted.
-/

namespace Xterm

/-! ## `ucs4_to_utf8` -/

/-- The code units of an ASCII string literal, as bytes. -/
def str (s : String) : List Nat := s.toList.map Char.toNat

/-- Rendering of a non-negative integer by the `printf` conversions `%d` and `%u`:
unpadded decimal digits, most significant first. -/
def dec (n : Nat) : List Nat := (Nat.toDigits 10 n).map Char.toNat

/-- The function `ucs4_to_utf8`: the bytes it stores into `out`, terminating `'\0'`
included.  `(unsigned char)` is reduction modulo 256. -/
def ucs4_to_utf8 (ucs4 : Int) : List Nat :=
  let B10000000 : Nat := 128
  let B11000000 : Nat := 192
  let B11100000 : Nat := 224
  let B11110000 : Nat := 240
  let B000_000000_000000_111111 : Nat := 63
  let B000_000000_011111_000000 : Nat := 1984
  let B000_000000_111111_000000 : Nat := 4032
  let B000_001111_000000_000000 : Nat := 61440
  let B000_111111_000000_000000 : Nat := 258048
  let B111_000000_000000_000000 : Nat := 1835008
  let u : Nat := ucs4.toNat
  if ucs4 < 0 then
    [63, 0]
  else if ucs4 ≤ 0x7F then
    [u % 256, 0]
  else if ucs4 ≤ 0x07FF then
    [B11000000 ||| (((u &&& B000_000000_011111_000000) >>> 6) % 256),
     B10000000 ||| (((u &&& B000_000000_000000_111111) >>> 0) % 256),
     0]
  else if ucs4 ≤ 0xFFFF then
    [B11100000 ||| (((u &&& B000_001111_000000_000000) >>> 12) % 256),
     B10000000 ||| (((u &&& B000_000000_111111_000000) >>> 6) % 256),
     B10000000 ||| (((u &&& B000_000000_000000_111111) >>> 0) % 256),
     0]
  else if ucs4 ≤ 0x10FFFF then
    [B11110000 ||| (((u &&& B111_000000_000000_000000) >>> 18) % 256),
     B10000000 ||| (((u &&& B000_111111_000000_000000) >>> 12) % 256),
     B10000000 ||| (((u &&& B000_000000_111111_000000) >>> 6) % 256),
     B10000000 ||| (((u &&& B000_000000_000000_111111) >>> 0) % 256),
     0]
  else
    [63, 0]

/-- What `%s` writes for a buffer: the bytes before the first `'\0'`. -/
def cstr (buf : List Nat) : List Nat := buf.takeWhile (fun b => b != 0)

/-! ## Reference encoding and decoder (from the specification) -/

/-- The `n`-bit field of `v` whose least significant bit is bit `lo`. -/
def bitField (v lo n : Nat) : Nat := (v / 2 ^ lo) % 2 ^ n

/-- The canonical variable-length encoding as the specification words it:
`0xxxxxxx`, `110xxxxx 10xxxxxx`, `1110xxxx 10xxxxxx 10xxxxxx`,
`11110xxx 10xxxxxx 10xxxxxx 10xxxxxx`, the `x` bits being the bits of `v` from
most to least significant. -/
def utf8_canonical (v : Nat) : List Nat :=
  if v ≤ 0x7F then [v]
  else if v ≤ 0x7FF then [0xC0 + bitField v 6 5, 0x80 + bitField v 0 6]
  else if v ≤ 0xFFFF then [0xE0 + bitField v 12 4, 0x80 + bitField v 6 6, 0x80 + bitField v 0 6]
  else [0xF0 + bitField v 18 3, 0x80 + bitField v 12 6, 0x80 + bitField v 6 6,
        0x80 + bitField v 0 6]

/-- A continuation byte `10xxxxxx`. -/
def isCont (b : Nat) : Bool := decide (0x80 ≤ b) && decide (b ≤ 0xBF)

/-- A conformant decoder of one UTF-8 encoded character (Unicode, table of
well-formed byte sequences; RFC 3629): the whole input must be one well-formed
sequence.  Overlong forms, surrogates `D800..DFFF` and values above `10FFFF` are
rejected. -/
def utf8_decode : List Nat → Option Nat
  | [b0] => if b0 ≤ 0x7F then some b0 else none
  | [b0, b1] =>
    if 0xC0 ≤ b0 ∧ b0 ≤ 0xDF ∧ isCont b1 = true then
      let v := (b0 - 0xC0) * 64 + (b1 - 0x80)
      if 0x80 ≤ v then some v else none
    else none
  | [b0, b1, b2] =>
    if 0xE0 ≤ b0 ∧ b0 ≤ 0xEF ∧ isCont b1 = true ∧ isCont b2 = true then
      let v := (b0 - 0xE0) * 4096 + (b1 - 0x80) * 64 + (b2 - 0x80)
      if 0x800 ≤ v ∧ ¬ (0xD800 ≤ v ∧ v ≤ 0xDFFF) then some v else none
    else none
  | [b0, b1, b2, b3] =>
    if 0xF0 ≤ b0 ∧ b0 ≤ 0xF7 ∧ isCont b1 = true ∧ isCont b2 = true ∧ isCont b3 = true then
      let v := (b0 - 0xF0) * 262144 + (b1 - 0x80) * 4096 + (b2 - 0x80) * 64 + (b3 - 0x80)
      if 0x10000 ≤ v ∧ v ≤ 0x10FFFF then some v else none
    else none
  | _ => none

/-- The encoded bytes `ucs4_to_utf8` produces: what it stores before the
terminating `'\0'` it appends. -/
def encoded (v : Int) : List Nat := (ucs4_to_utf8 v).dropLast

/-! ## Console data -/

/-- The colour channels the renderer reads from a tile colour: `r`, `g`, `b`,
each a byte (`uint8_t`, printed with `%u`). -/
structure TCOD_ColorRGB where
  r : Nat
  g : Nat
  b : Nat
deriving DecidableEq

/-- One console cell: character code (an `int`) and the two colours. -/
structure TCOD_ConsoleTile where
  ch : Int
  fg : TCOD_ColorRGB
  bg : TCOD_ColorRGB
deriving DecidableEq

/-- The tile a read outside a tile array yields in the model.  Such a read is
undefined in C; every statement below that depends on a tile is made for
consoles whose array has `w * h` elements, where it never happens. -/
instance instInhabitedTile : Inhabited TCOD_ConsoleTile := ⟨⟨0, ⟨0, 0, 0⟩, ⟨0, 0, 0⟩⟩⟩

/-- A console: width, height and the row-major tile array. -/
structure TCOD_Console where
  w : Nat
  h : Nat
  tiles : List TCOD_ConsoleTile
deriving DecidableEq

/-- The field `elements` of a console: the number of tiles of its array. -/
def TCOD_Console.elements (c : TCOD_Console) : Nat := c.tiles.length

/-- A console is well formed when its array holds exactly `w * h` tiles. -/
def TCOD_Console.wf (c : TCOD_Console) : Prop := c.tiles.length = c.w * c.h

instance (c : TCOD_Console) : Decidable c.wf := by unfold TCOD_Console.wf; infer_instance

/-- The tile at column `x` of row `y`: `tiles[w * y + x]`. -/
def TCOD_Console.tile (c : TCOD_Console) (x y : Nat) : TCOD_ConsoleTile :=
  c.tiles.getD (c.w * y + x) default

/-- Modelled from the spec: `TCOD_console_new` (console.c is not among the sources)
allocates a `w` by `h` grid of `w * h` tiles; the allocation is taken to succeed.
What a new tile holds is left open: it is the parameter `blank`. -/
def TCOD_console_new (blank : TCOD_ConsoleTile) (w h : Nat) : TCOD_Console :=
  ⟨w, h, List.replicate (w * h) blank⟩

/-- The renderer data: `cache` is `none` for the `NULL` pointer. -/
structure TCOD_RendererXterm where
  cache : Option TCOD_Console
deriving DecidableEq

/-! ## Output events -/

/-- One `fprintf(stdout, ...)` call of the file, with its arguments. -/
inductive Emit where
  /-- The call with `"\x1b[?25l"` in `xterm_present`. -/
  | hideCursor
  /-- The call with `"\x1b[%d;0H"` and the row `y`. -/
  | rowPos (y : Nat)
  /-- The call with `"\x1b[%dC"` and `skip_tiles`. -/
  | skip (n : Nat)
  /-- The call with `"\x1b[38;2;%u;%u;%u;48;2;%u;%u;%um%s"`, the colours and the buffer
  returned by `ucs4_to_utf8`. -/
  | glyph (fg bg : TCOD_ColorRGB) (utf8 : List Nat)
  /-- The call of `xterm_cleanup`. -/
  | teardown
  /-- The first call of `TCOD_renderer_init_xterm`. -/
  | setup
  /-- The call with `"\x1b]0;%s\x07"` and the window title. -/
  | title (window_title : List Nat)
deriving DecidableEq

/-- The bytes one `fprintf` call writes. -/
def Emit.bytes : Emit → List Nat
  | .hideCursor => str "\x1b[?25l"
  | .rowPos y => str "\x1b[" ++ dec y ++ str ";0H"
  | .skip n => str "\x1b[" ++ dec n ++ str "C"
  | .glyph fg bg utf8 =>
    str "\x1b[38;2;" ++ dec fg.r ++ str ";" ++ dec fg.g ++ str ";" ++ dec fg.b ++
      str ";48;2;" ++ dec bg.r ++ str ";" ++ dec bg.g ++ str ";" ++ dec bg.b ++ str "m" ++
      cstr utf8
  | .teardown => str "\x1b[2J" ++ str "\x1b[?1049l" ++ str "\x1b[?25h"
  | .setup => str "\x1b[?1049h" ++ str "\x1b[2J" ++ str "\x1b[?25l"
  | .title window_title => str "\x1b]0;" ++ cstr window_title ++ str "\x07"

/-- The byte stream of a sequence of calls. -/
def stream (es : List Emit) : List Nat := (es.map Emit.bytes).flatten

/-- An event is a coloured-glyph sequence. -/
def Emit.isGlyph : Emit → Bool
  | .glyph _ _ _ => true
  | _ => false

/-- An event is a skip sequence. -/
def Emit.isSkip : Emit → Bool
  | .skip _ => true
  | _ => false

/-! ## `xterm_present` -/

/-- The operation `a & m` of C for a 32-bit `int` `a` and a non-negative constant `m`
below `2^31`: the AND of the two's complement pattern of `a` with `m`. -/
def int_and (a : Int) (m : Nat) : Int := Int.ofNat ((a % 4294967296).toNat &&& m)

/-- The comparison of lines 116 to 118: character and the six colour channels. -/
def tile_unchanged (tile prev_tile : TCOD_ConsoleTile) : Bool :=
  tile.ch == prev_tile.ch && tile.fg.r == prev_tile.fg.r && tile.fg.g == prev_tile.fg.g &&
    tile.fg.b == prev_tile.fg.b && tile.bg.r == prev_tile.bg.r && tile.bg.g == prev_tile.bg.g &&
    tile.bg.b == prev_tile.bg.b

/-- The coloured-glyph call of lines 127 to 136 for a tile. -/
def glyph_of (tile : TCOD_ConsoleTile) : Emit :=
  Emit.glyph tile.fg tile.bg (ucs4_to_utf8 (int_and tile.ch 0x10FFFF))

/-- What lines 122 to 136 emit for a changed tile when the counter is `skip_tiles`. -/
def tile_events (skip_tiles : Nat) (tile : TCOD_ConsoleTile) : List Emit :=
  (if skip_tiles ≠ 0 then [Emit.skip skip_tiles] else []) ++ [glyph_of tile]

/-- The inner loop `for (x = ...; x < console->w; ++x)` with `n` columns left to visit,
from the state `cache`, `skip_tiles`.  It returns the cache and, for each column
visited, the events emitted in that iteration. -/
def scan_cols (console : TCOD_Console) (y : Nat) :
    Nat → Nat → List TCOD_ConsoleTile → Nat → List TCOD_ConsoleTile × List (List Emit)
  | 0, _, cache, _ => (cache, [])
  | n + 1, x, cache, skip_tiles =>
    let prev_tile := cache.getD (console.w * y + x) default
    let tile := console.tiles.getD (console.w * y + x) default
    if tile_unchanged tile prev_tile then
      let r := scan_cols console y n (x + 1) cache (skip_tiles + 1)
      (r.1, [] :: r.2)
    else
      let r := scan_cols console y n (x + 1) (cache.set (console.w * y + x) tile) 0
      (r.1, tile_events skip_tiles tile :: r.2)

/-- The outer loop `for (y = ...; y < console->h; ++y)` with `n` rows left.  It
returns the cache and, for each row visited, the events of that iteration: the
row-position call first, then the events of each column. -/
def scan_rows (console : TCOD_Console) :
    Nat → Nat → List TCOD_ConsoleTile → List TCOD_ConsoleTile × List (List (List Emit))
  | 0, _, cache => (cache, [])
  | n + 1, y, cache =>
    let r := scan_cols console y console.w 0 cache 0
    let rest := scan_rows console n (y + 1) r.1
    (rest.1, ([Emit.rowPos y] :: r.2) :: rest.2)

/-- Lines 101 to 108: the cache after the size check and the allocation, every
character of a new cache set to `-1`. -/
def ensure_cache (blank : TCOD_ConsoleTile) (context : TCOD_RendererXterm)
    (console : TCOD_Console) : TCOD_Console :=
  let cache : Option TCOD_Console :=
    match context.cache with
    | some c => if c.w ≠ console.w ∨ c.h ≠ console.h then none else some c
    | none => none
  match cache with
  | some c => c
  | none =>
    let c := TCOD_console_new blank console.w console.h
    { c with tiles := c.tiles.map (fun t => { t with ch := -1 }) }

/-- The events of one `xterm_present` call grouped by iteration: entry `y` is the
list for row `y`, whose entry `0` is the row-position call and whose entry `x + 1`
holds what the iteration for column `x` emitted. -/
def present_trace (blank : TCOD_ConsoleTile) (context : TCOD_RendererXterm)
    (console : TCOD_Console) : List (List (List Emit)) :=
  (scan_rows console console.h 0 (ensure_cache blank context console).tiles).2

/-- The function `xterm_present`: the renderer data after the call and the calls
made, in order.  The return value is always `TCOD_E_OK`. -/
def xterm_present (blank : TCOD_ConsoleTile) (context : TCOD_RendererXterm)
    (console : TCOD_Console) : TCOD_RendererXterm × List Emit :=
  let cache := ensure_cache blank context console
  let r := scan_rows console console.h 0 cache.tiles
  (⟨some { cache with tiles := r.1 }⟩, Emit.hideCursor :: (r.2.map List.flatten).flatten)

/-- The events emitted by `xterm_present` in the iteration for column `x` of row `y`. -/
def events_at (blank : TCOD_ConsoleTile) (context : TCOD_RendererXterm)
    (console : TCOD_Console) (x y : Nat) : List Emit :=
  ((present_trace blank context console).getD y []).getD (x + 1) []

/-- The events emitted by `xterm_present` in the iteration for row `y`. -/
def events_row (blank : TCOD_ConsoleTile) (context : TCOD_RendererXterm)
    (console : TCOD_Console) (y : Nat) : List Emit :=
  ((present_trace blank context console).getD y []).flatten

/-- A renderer on which `xterm_present` has not been called yet: `calloc` leaves the
cache pointer `NULL`. -/
def fresh : TCOD_RendererXterm := ⟨none⟩

/-! ## Session lifecycle -/

/-- The functions registered with `atexit` by this file. -/
inductive ExitHandler where
  | xterm_cleanup
deriving DecidableEq

/-- The process as the lifecycle functions see it: what has been written to
`stdout` and the handlers registered with `atexit`, latest first. -/
structure Process where
  out : List Emit
  handlers : List ExitHandler
deriving DecidableEq

/-- The function `xterm_cleanup`. -/
def xterm_cleanup (p : Process) : Process := { p with out := p.out ++ [Emit.teardown] }

/-- The function `xterm_destructor`: the renderer data is freed, then `xterm_cleanup`
is called. -/
def xterm_destructor (p : Process) (_self : TCOD_RendererXterm) : Process := xterm_cleanup p

/-- The function `TCOD_renderer_init_xterm`.  `context_ok` and `data_ok` say whether
`TCOD_context_new_` and `calloc` succeed; the result is `none` for `NULL`. -/
def TCOD_renderer_init_xterm (p : Process) (context_ok data_ok : Bool)
    (window_title : Option (List Nat)) : Process × Option TCOD_RendererXterm :=
  if !context_ok then (p, none)
  else if !data_ok then (p, none)
  else
    let p1 : Process := { p with handlers := ExitHandler.xterm_cleanup :: p.handlers }
    let p2 : Process := { p1 with out := p1.out ++ [Emit.setup] }
    let p3 : Process :=
      match window_title with
      | some t => { p2 with out := p2.out ++ [Emit.title t] }
      | none => p2
    (p3, some ⟨none⟩)

/-- Running one registered handler. -/
def ExitHandler.run : ExitHandler → Process → Process
  | .xterm_cleanup, p => Xterm.xterm_cleanup p

/-- Process exit: every registered handler is called once, latest registration first. -/
def process_exit (p : Process) : Process :=
  p.handlers.foldl (fun q hdl => hdl.run q) { p with handlers := [] }

/-- The number of times the teardown sequence was written. -/
def teardown_count (p : Process) : Nat := p.out.count Emit.teardown

/-! ## Reference description of one row -/

/-- The value of `skip_tiles` when the scan of a row reaches column `x`: the
length of the run of unchanged tiles that ends just before column `x`. -/
def skip_before (tile prev : Nat → TCOD_ConsoleTile) : Nat → Nat
  | 0 => 0
  | x + 1 => if tile_unchanged (tile x) (prev x) then skip_before tile prev x + 1 else 0

/-- The events of each column of a row, computed from the row of the frame and the
row of the cache as it is when the call starts: nothing for an unchanged tile, an
optional skip and the glyph for a changed one. -/
def ref_cols (tile prev : Nat → TCOD_ConsoleTile) : Nat → Nat → Nat → List (List Emit)
  | 0, _, _ => []
  | n + 1, x, skip_tiles =>
    if tile_unchanged (tile x) (prev x) then [] :: ref_cols tile prev n (x + 1) (skip_tiles + 1)
    else tile_events skip_tiles (tile x) :: ref_cols tile prev n (x + 1) 0

/-- The cache tile after a cell has been visited. -/
def merge_tile (tile prev : TCOD_ConsoleTile) : TCOD_ConsoleTile :=
  if tile_unchanged tile prev then prev else tile

/-- Row `y` of a tile array of width `w`, as a function of the column. -/
def row_of (w : Nat) (tiles : List TCOD_ConsoleTile) (y : Nat) : Nat → TCOD_ConsoleTile :=
  fun x => tiles.getD (w * y + x) default

/-- The row of the cache `xterm_present` compares row `y` of the frame with. -/
def cache_row (blank : TCOD_ConsoleTile) (context : TCOD_RendererXterm)
    (console : TCOD_Console) (y : Nat) : Nat → TCOD_ConsoleTile :=
  row_of console.w (ensure_cache blank context console).tiles y

/-- The output of a call that repaints every tile: the cursor-hide call, then for
each row the row-position call and one glyph per tile, no skip. -/
def full_repaint (console : TCOD_Console) : List Emit :=
  Emit.hideCursor ::
    ((List.range console.h).map (fun y =>
      Emit.rowPos y :: (List.range console.w).map (fun x => glyph_of (console.tile x y)))).flatten

/-- The console `xterm_present` allocates when it has no usable cache: `w * h` tiles,
every character `-1`. -/
def sentinel_cache (blank : TCOD_ConsoleTile) (w h : Nat) : TCOD_Console :=
  ⟨w, h, List.replicate (w * h) { blank with ch := -1 }⟩

/-- The character bytes of an event: what `%s` writes in a glyph call. -/
def Emit.char_bytes : Emit → List Nat
  | .glyph _ _ utf8 => cstr utf8
  | _ => []

/-! ## Runs of the session lifecycle -/

/-- The process before the renderer is created. -/
def Process.initial : Process := ⟨[], []⟩

/-- A successful `TCOD_renderer_init_xterm`, then the explicit teardown, then
process exit. -/
def run_destructor_then_exit (window_title : Option (List Nat)) : Process :=
  match TCOD_renderer_init_xterm Process.initial true true window_title with
  | (p, some r) => process_exit (xterm_destructor p r)
  | (p, none) => p

/-- A successful `TCOD_renderer_init_xterm`, then the exit hook, then the explicit
teardown. -/
def run_exit_then_destructor (window_title : Option (List Nat)) : Process :=
  match TCOD_renderer_init_xterm Process.initial true true window_title with
  | (p, some r) => xterm_destructor (process_exit p) r
  | (p, none) => p

/-! ## The scenario of the specification -/

/-- White, `(255, 255, 255)`. -/
def white : TCOD_ColorRGB := ⟨255, 255, 255⟩

/-- Black, `(0, 0, 0)`. -/
def black : TCOD_ColorRGB := ⟨0, 0, 0⟩

/-- A space, white on black: the tile taken for a new console in the examples. -/
def blank_tile : TCOD_ConsoleTile := ⟨32, white, black⟩

/-- The 3 by 1 frame `[A, A, B]`, white on black. -/
def frame_AAB : TCOD_Console := ⟨3, 1, [⟨65, white, black⟩, ⟨65, white, black⟩, ⟨66, white, black⟩]⟩

/-- The 3 by 1 frame `[A, C, B]`, white on black. -/
def frame_ACB : TCOD_Console := ⟨3, 1, [⟨65, white, black⟩, ⟨67, white, black⟩, ⟨66, white, black⟩]⟩

/-- The renderer after `frame_AAB` has been presented twice to a fresh renderer. -/
def after_two_presents : TCOD_RendererXterm :=
  (xterm_present blank_tile (xterm_present blank_tile fresh frame_AAB).1 frame_AAB).1

/-! ## Renderer invariant -/

/-- The renderer data is well formed when its cache, if there is one, holds `w * h`
tiles, as every console made by `TCOD_console_new` does. -/
def TCOD_RendererXterm.wf (r : TCOD_RendererXterm) : Prop :=
  match r.cache with
  | some c => c.wf
  | none => True

instance (r : TCOD_RendererXterm) : Decidable r.wf := by
  unfold TCOD_RendererXterm.wf
  split <;> infer_instance

/-! ## Reference output of a call (from the specification) -/

/-- A sequence of bytes is one well-formed UTF-8 encoded character. -/
def utf8_well_formed (bs : List Nat) : Bool := (utf8_decode bs).isSome

/-- The tile at column `x` of row `y` of the frame differs from the cache cell the
call compares it with. -/
def differs (blank : TCOD_ConsoleTile) (context : TCOD_RendererXterm) (console : TCOD_Console)
    (x y : Nat) : Bool :=
  !tile_unchanged (console.tile x y) (cache_row blank context console y x)

/-- The positions `(x, y)` of the tiles of the frame that differ from the cache, in
row-major order. -/
def changed_tiles (blank : TCOD_ConsoleTile) (context : TCOD_RendererXterm)
    (console : TCOD_Console) : List (Nat × Nat) :=
  ((List.range console.h).map (fun y =>
    ((List.range console.w).filter (fun x => differs blank context console x y)).map
      (fun x => (x, y)))).flatten

/-- The number of tiles of the frame that differ from the cache. -/
def changed_count (blank : TCOD_ConsoleTile) (context : TCOD_RendererXterm)
    (console : TCOD_Console) : Nat :=
  (changed_tiles blank context console).length

/-- The reference events of row `y`: for each tile of the row that differs from the
cache, taken left to right, the skip over the unchanged tiles just before it, if
there are any, and the glyph of the tile. -/
def ref_row (blank : TCOD_ConsoleTile) (context : TCOD_RendererXterm) (console : TCOD_Console)
    (y : Nat) : List Emit :=
  (((List.range console.w).filter (fun x => differs blank context console x y)).map
    (fun x =>
      tile_events
        (skip_before (row_of console.w console.tiles y) (cache_row blank context console y) x)
        (console.tile x y))).flatten

/-- The reference output of a call: the cursor-hide call first, then for each row
`y = 0 .. h - 1` in ascending order the row-position call followed by the reference
events of the row. -/
def ref_present (blank : TCOD_ConsoleTile) (context : TCOD_RendererXterm)
    (console : TCOD_Console) : List Emit :=
  Emit.hideCursor ::
    ((List.range console.h).map (fun y =>
      Emit.rowPos y :: ref_row blank context console y)).flatten

/-! ## Cursor columns, skips and terminal rows -/

/-- The count of a skip call; zero for any other event. -/
def Emit.skip_count : Emit → Nat
  | .skip n => n
  | _ => 0

/-- The sum of the counts of the skip calls of a sequence of events. -/
def skip_sum (es : List Emit) : Nat := (es.map Emit.skip_count).sum

/-- The events of the iteration for row `y` that come after its row-position call and
before the last event of the iteration for column `x`: what the columns before `x`
emitted, then what column `x` emitted before its glyph. -/
def row_before (blank : TCOD_ConsoleTile) (context : TCOD_RendererXterm)
    (console : TCOD_Console) (x y : Nat) : List Emit :=
  ((((present_trace blank context console).getD y []).drop 1).take x).flatten ++
    (events_at blank context console x y).dropLast

/-- Every skip call of the sequence has a count between `1` and `w - 1` and is
immediately followed by a glyph call. -/
def skips_ok (w : Nat) : List Emit → Bool
  | [] => true
  | e :: rest =>
    (match e with
      | .skip n =>
        decide (1 ≤ n) && decide (n ≤ w - 1) &&
          (match rest with
            | g :: _ => g.isGlyph
            | [] => false)
      | _ => true) && skips_ok w rest

/-- The terminal row addressed by the row parameter `p` of a cursor-position
sequence under the ANSI/VT convention: rows are numbered from 1 and a parameter of
0 is treated as 1. -/
def effective_row (p : Nat) : Nat := max p 1

/-! ## Bit-level lemmas -/

theorem and_mask_shift (n i k : Nat) :
    (n &&& ((2 ^ k - 1) <<< i)) >>> i = (n / 2 ^ i) % 2 ^ k := by
  rw [← Nat.shiftRight_eq_div_pow]
  apply Nat.eq_of_testBit_eq
  intro j
  simp only [Nat.testBit_shiftRight, Nat.testBit_and, Nat.testBit_shiftLeft,
    Nat.testBit_mod_two_pow, Nat.testBit_two_pow_sub_one]
  by_cases h : j < k <;> simp [h, Bool.and_comm]

theorem lor_eq_add (a b i : Nat) (hb : b < 2 ^ i) : (2 ^ i * a) ||| b = 2 ^ i * a + b :=
  (Nat.mul_add_lt_is_or hb a).symm

theorem field_0_6 (n : Nat) : (n &&& 63) >>> 0 = bitField n 0 6 := and_mask_shift n 0 6
theorem field_6_5 (n : Nat) : (n &&& 1984) >>> 6 = bitField n 6 5 := and_mask_shift n 6 5
theorem field_6_6 (n : Nat) : (n &&& 4032) >>> 6 = bitField n 6 6 := and_mask_shift n 6 6
theorem field_12_4 (n : Nat) : (n &&& 61440) >>> 12 = bitField n 12 4 := and_mask_shift n 12 4
theorem field_12_6 (n : Nat) : (n &&& 258048) >>> 12 = bitField n 12 6 := and_mask_shift n 12 6
theorem field_18_3 (n : Nat) : (n &&& 1835008) >>> 18 = bitField n 18 3 := and_mask_shift n 18 3

theorem bitField_lt (v lo n : Nat) : bitField v lo n < 2 ^ n :=
  Nat.mod_lt _ (Nat.two_pow_pos n)

theorem lead2 (b : Nat) (hb : b < 32) : 192 ||| (b % 256) = 0xC0 + b := by
  rw [Nat.mod_eq_of_lt (by omega)]; exact lor_eq_add 3 b 6 (by norm_num; omega)
theorem lead3 (b : Nat) (hb : b < 16) : 224 ||| (b % 256) = 0xE0 + b := by
  rw [Nat.mod_eq_of_lt (by omega)]; exact lor_eq_add 7 b 5 (by norm_num; omega)
theorem lead4 (b : Nat) (hb : b < 8) : 240 ||| (b % 256) = 0xF0 + b := by
  rw [Nat.mod_eq_of_lt (by omega)]; exact lor_eq_add 15 b 4 (by norm_num; omega)
theorem cont (b : Nat) (hb : b < 64) : 128 ||| (b % 256) = 0x80 + b := by
  rw [Nat.mod_eq_of_lt (by omega)]; exact lor_eq_add 2 b 6 (by norm_num; omega)

/-- On `[0, 0x10FFFF]` the source encoder stores the canonical bytes followed by `'\0'`. -/
theorem ucs4_to_utf8_nat (n : Nat) (h : n ≤ 0x10FFFF) :
    ucs4_to_utf8 (n : Int) = utf8_canonical n ++ [0] := by
  have f0 := bitField_lt n 0 6
  have f6 := bitField_lt n 6 6
  have f65 := bitField_lt n 6 5
  have f12 := bitField_lt n 12 6
  have f124 := bitField_lt n 12 4
  have f18 := bitField_lt n 18 3
  norm_num at f0 f6 f65 f12 f124 f18
  unfold ucs4_to_utf8 utf8_canonical
  simp only [Int.toNat_ofNat, field_0_6, field_6_5, field_6_6, field_12_4, field_12_6, field_18_3]
  have hneg : ¬ ((n : Int) < 0) := by omega
  rw [if_neg hneg]
  by_cases h1 : n ≤ 0x7F
  · have h1i : (n : Int) ≤ 0x7F := by omega
    rw [if_pos h1i, if_pos h1, Nat.mod_eq_of_lt (by omega)]; rfl
  · have h1i : ¬ (n : Int) ≤ 0x7F := by omega
    rw [if_neg h1i, if_neg h1]
    by_cases h2 : n ≤ 0x7FF
    · have h2i : (n : Int) ≤ 0x07FF := by omega
      rw [if_pos h2i, if_pos h2, lead2 _ f65, cont _ f0]; rfl
    · have h2i : ¬ (n : Int) ≤ 0x07FF := by omega
      rw [if_neg h2i, if_neg h2]
      by_cases h3 : n ≤ 0xFFFF
      · have h3i : (n : Int) ≤ 0xFFFF := by omega
        rw [if_pos h3i, if_pos h3, lead3 _ f124, cont _ f6, cont _ f0]; rfl
      · have h3i : ¬ (n : Int) ≤ 0xFFFF := by omega
        have h4i : (n : Int) ≤ 0x10FFFF := by omega
        rw [if_neg h3i, if_neg h3, if_pos h4i, lead4 _ f18, cont _ f12, cont _ f6, cont _ f0]; rfl

/-! ## The scan loops -/

theorem getD_set_ne {α : Type} (l : List α) (i j : Nat) (a d : α) (h : i ≠ j) :
    (l.set i a).getD j d = l.getD j d := by
  simp [List.getD_eq_getElem?_getD, List.getElem?_set_ne h]

theorem getD_set_self {α : Type} (l : List α) (i : Nat) (a d : α) (h : i < l.length) :
    (l.set i a).getD i d = a := by
  simp [List.getD_eq_getElem?_getD, List.getElem?_set_self, h]

theorem getD_of_length_le {α : Type} (l : List α) (i : Nat) (d : α) (h : l.length ≤ i) :
    l.getD i d = d := by
  simp [List.getD_eq_getElem?_getD, List.getElem?_eq_none h]

theorem tile_unchanged_iff (tile prev : TCOD_ConsoleTile) :
    tile_unchanged tile prev = true ↔
      tile.ch = prev.ch ∧ tile.fg.r = prev.fg.r ∧ tile.fg.g = prev.fg.g ∧ tile.fg.b = prev.fg.b ∧
        tile.bg.r = prev.bg.r ∧ tile.bg.g = prev.bg.g ∧ tile.bg.b = prev.bg.b := by
  simp [tile_unchanged, and_assoc]

theorem tile_unchanged_iff_eq (tile prev : TCOD_ConsoleTile) :
    tile_unchanged tile prev = true ↔ tile = prev := by
  rw [tile_unchanged_iff]
  obtain ⟨c, ⟨a1, a2, a3⟩, ⟨b1, b2, b3⟩⟩ := tile
  obtain ⟨c', ⟨a1', a2', a3'⟩, ⟨b1', b2', b3'⟩⟩ := prev
  simp [and_assoc]

theorem tile_unchanged_self (t : TCOD_ConsoleTile) : tile_unchanged t t = true :=
  (tile_unchanged_iff_eq t t).2 rfl

theorem tile_unchanged_merge (tile prev : TCOD_ConsoleTile) :
    tile_unchanged tile (merge_tile tile prev) = true := by
  unfold merge_tile
  by_cases h : tile_unchanged tile prev = true
  · rw [if_pos h]; exact h
  · rw [if_neg h]; exact tile_unchanged_self tile

/-- The reference row depends on the tiles of the columns still to visit only. -/
theorem ref_cols_congr (tile prev tile' prev' : Nat → TCOD_ConsoleTile) (n : Nat) :
    ∀ (x s : Nat), (∀ x', x ≤ x' → x' < x + n → tile x' = tile' x' ∧ prev x' = prev' x') →
      ref_cols tile prev n x s = ref_cols tile' prev' n x s := by
  induction n with
  | zero => intro x s _; rfl
  | succ n ih =>
    intro x s h
    have hx := h x (Nat.le_refl x) (by omega)
    have hrest : ∀ s', ref_cols tile prev n (x + 1) s' = ref_cols tile' prev' n (x + 1) s' :=
      fun s' => ih (x + 1) s' (fun x' h1 h2 => h x' (by omega) (by omega))
    simp only [ref_cols, hx.1, hx.2, hrest]

/-- The events of the inner loop are those of the reference row for the cache the
loop starts from. -/
theorem scan_cols_trace (console : TCOD_Console) (y n : Nat) :
    ∀ (x : Nat) (cache : List TCOD_ConsoleTile) (s : Nat),
      (scan_cols console y n x cache s).2 =
        ref_cols (row_of console.w console.tiles y) (row_of console.w cache y) n x s := by
  induction n with
  | zero => intro x cache s; rfl
  | succ n ih =>
    intro x cache s
    by_cases hu : tile_unchanged (console.tiles.getD (console.w * y + x) default)
        (cache.getD (console.w * y + x) default) = true
    · simp only [scan_cols, ref_cols, row_of, if_pos hu]
      rw [ih (x + 1) cache (s + 1)]
    · simp only [scan_cols, ref_cols, row_of, if_neg hu]
      rw [ih (x + 1) _ 0]
      congr 1
      apply ref_cols_congr
      intro x' h1 h2
      refine ⟨rfl, ?_⟩
      simp only [row_of]
      exact getD_set_ne _ _ _ _ _ (by omega)

theorem scan_cols_length (console : TCOD_Console) (y n : Nat) :
    ∀ (x : Nat) (cache : List TCOD_ConsoleTile) (s : Nat),
      (scan_cols console y n x cache s).1.length = cache.length := by
  induction n with
  | zero => intro x cache s; rfl
  | succ n ih =>
    intro x cache s
    by_cases hu : tile_unchanged (console.tiles.getD (console.w * y + x) default)
        (cache.getD (console.w * y + x) default) = true
    · simp only [scan_cols, if_pos hu]; exact ih _ _ _
    · simp only [scan_cols, if_neg hu]; rw [ih]; exact List.length_set _ _ _

/-- The cache after the inner loop: the cells of the columns visited hold the merged
tile, every other cell is as before. -/
theorem scan_cols_cache (console : TCOD_Console) (y n : Nat) :
    ∀ (x : Nat) (cache : List TCOD_ConsoleTile) (s i : Nat),
      (scan_cols console y n x cache s).1.getD i default =
        if console.w * y + x ≤ i ∧ i < console.w * y + x + n ∧ i < cache.length then
          merge_tile (console.tiles.getD i default) (cache.getD i default)
        else cache.getD i default := by
  induction n with
  | zero =>
    intro x cache s i
    have : ¬ (console.w * y + x ≤ i ∧ i < console.w * y + x + 0 ∧ i < cache.length) := by omega
    rw [if_neg this]; rfl
  | succ n ih =>
    intro x cache s i
    by_cases hu : tile_unchanged (console.tiles.getD (console.w * y + x) default)
        (cache.getD (console.w * y + x) default) = true
    · simp only [scan_cols, if_pos hu]
      rw [ih (x + 1) cache (s + 1) i]
      by_cases hi : i = console.w * y + x
      · subst hi
        have h1 : ¬ (console.w * y + (x + 1) ≤ console.w * y + x ∧
            console.w * y + x < console.w * y + (x + 1) + n ∧
            console.w * y + x < cache.length) := by omega
        rw [if_neg h1]
        by_cases hl : console.w * y + x < cache.length
        · rw [if_pos ⟨Nat.le_refl _, by omega, hl⟩, merge_tile, if_pos hu]
        · rw [if_neg (by omega)]
      · by_cases hc : console.w * y + (x + 1) ≤ i ∧ i < console.w * y + (x + 1) + n ∧
            i < cache.length
        · rw [if_pos hc, if_pos (by omega)]
        · rw [if_neg hc, if_neg (by omega)]
    · simp only [scan_cols, if_neg hu]
      rw [ih (x + 1) _ 0 i, List.length_set]
      by_cases hi : i = console.w * y + x
      · subst hi
        have h1 : ¬ (console.w * y + (x + 1) ≤ console.w * y + x ∧
            console.w * y + x < console.w * y + (x + 1) + n ∧
            console.w * y + x < cache.length) := by omega
        rw [if_neg h1]
        by_cases hl : console.w * y + x < cache.length
        · rw [if_pos ⟨Nat.le_refl _, by omega, hl⟩, merge_tile, if_neg hu, getD_set_self _ _ _ _ hl]
        · rw [if_neg (by omega), getD_of_length_le _ _ _ (by rw [List.length_set]; omega),
            getD_of_length_le _ _ _ (by omega)]
      · rw [getD_set_ne _ _ _ _ _ (Ne.symm hi)]
        by_cases hc : console.w * y + (x + 1) ≤ i ∧ i < console.w * y + (x + 1) + n ∧
            i < cache.length
        · rw [if_pos hc, if_pos (by omega)]
        · rw [if_neg hc, if_neg (by omega)]

theorem scan_rows_length (console : TCOD_Console) (n : Nat) :
    ∀ (y : Nat) (cache : List TCOD_ConsoleTile),
      (scan_rows console n y cache).1.length = cache.length := by
  induction n with
  | zero => intro y cache; rfl
  | succ n ih =>
    intro y cache
    simp only [scan_rows]
    rw [ih, scan_cols_length]

/-- The cache after the outer loop: the cells of the rows visited hold the merged
tile, every other cell is as before. -/
theorem scan_rows_cache (console : TCOD_Console) (n : Nat) :
    ∀ (y : Nat) (cache : List TCOD_ConsoleTile) (i : Nat),
      (scan_rows console n y cache).1.getD i default =
        if console.w * y ≤ i ∧ i < console.w * y + console.w * n ∧ i < cache.length then
          merge_tile (console.tiles.getD i default) (cache.getD i default)
        else cache.getD i default := by
  induction n with
  | zero =>
    intro y cache i
    have : ¬ (console.w * y ≤ i ∧ i < console.w * y + console.w * 0 ∧ i < cache.length) := by
      rw [Nat.mul_zero]; omega
    rw [if_neg this]; rfl
  | succ n ih =>
    intro y cache i
    simp only [scan_rows]
    rw [ih (y + 1) _ i, scan_cols_length, scan_cols_cache]
    have e1 : console.w * (y + 1) = console.w * y + console.w := Nat.mul_succ _ _
    have e2 : console.w * (n + 1) = console.w * n + console.w := Nat.mul_succ _ _
    rw [e1, e2]
    by_cases hrow : console.w * y + 0 ≤ i ∧ i < console.w * y + 0 + console.w ∧ i < cache.length
    · rw [if_pos hrow, if_neg (by omega), if_pos (by omega)]
    · rw [if_neg hrow]
      by_cases hrest : console.w * y + console.w ≤ i ∧
          i < console.w * y + console.w + console.w * n ∧ i < cache.length
      · rw [if_pos hrest, if_pos (by omega)]
      · rw [if_neg hrest, if_neg (by omega)]

/-- The events of the outer loop, row by row, in terms of the cache the loop starts
from: each row is the row-position call followed by the reference row. -/
theorem scan_rows_trace (console : TCOD_Console) (n : Nat) :
    ∀ (y : Nat) (cache : List TCOD_ConsoleTile),
      (scan_rows console n y cache).2 =
        (List.range' y n).map (fun y' =>
          [Emit.rowPos y'] ::
            ref_cols (row_of console.w console.tiles y') (row_of console.w cache y')
              console.w 0 0) := by
  induction n with
  | zero => intro y cache; rfl
  | succ n ih =>
    intro y cache
    simp only [scan_rows, List.range', List.map_cons]
    rw [scan_cols_trace, ih (y + 1)]
    congr 1
    apply List.map_congr_left
    intro y' hy'
    rw [List.mem_range'_1] at hy'
    congr 1
    apply ref_cols_congr
    intro x' _ hx'
    refine ⟨rfl, ?_⟩
    simp only [row_of]
    rw [scan_cols_cache]
    have hmul : console.w * (y + 1) ≤ console.w * y' := Nat.mul_le_mul_left _ hy'.1
    have e1 : console.w * (y + 1) = console.w * y + console.w := Nat.mul_succ _ _
    rw [if_neg (by omega)]

/-! ## `xterm_present` as a whole -/

theorem present_trace_eq (blank : TCOD_ConsoleTile) (context : TCOD_RendererXterm)
    (console : TCOD_Console) :
    present_trace blank context console =
      (List.range console.h).map (fun y =>
        [Emit.rowPos y] ::
          ref_cols (row_of console.w console.tiles y) (cache_row blank context console y)
            console.w 0 0) := by
  unfold present_trace cache_row
  rw [scan_rows_trace, List.range_eq_range']

theorem xterm_present_out (blank : TCOD_ConsoleTile) (context : TCOD_RendererXterm)
    (console : TCOD_Console) :
    (xterm_present blank context console).2 =
      Emit.hideCursor :: ((present_trace blank context console).map List.flatten).flatten := rfl

/-! ## The reference row -/

theorem ref_cols_length (tile prev : Nat → TCOD_ConsoleTile) (n : Nat) :
    ∀ (x s : Nat), (ref_cols tile prev n x s).length = n := by
  induction n with
  | zero => intro x s; rfl
  | succ n ih =>
    intro x s
    by_cases hu : tile_unchanged (tile x) (prev x) = true
    · simp only [ref_cols, if_pos hu, List.length_cons, ih]
    · simp only [ref_cols, if_neg hu, List.length_cons, ih]

theorem skip_before_succ (tile prev : Nat → TCOD_ConsoleTile) (x : Nat) :
    skip_before tile prev (x + 1) =
      if tile_unchanged (tile x) (prev x) then skip_before tile prev x + 1 else 0 := rfl

/-- Entry `j` of the reference row: nothing for an unchanged tile, otherwise the
optional skip by the current run length and the glyph. -/
theorem ref_cols_getD (tile prev : Nat → TCOD_ConsoleTile) (n : Nat) :
    ∀ (x j : Nat), j < n →
      (ref_cols tile prev n x (skip_before tile prev x)).getD j [] =
        if tile_unchanged (tile (x + j)) (prev (x + j)) then []
        else tile_events (skip_before tile prev (x + j)) (tile (x + j)) := by
  induction n with
  | zero => intro x j hj; omega
  | succ n ih =>
    intro x j hj
    have hstep : ∀ s', s' = skip_before tile prev (x + 1) → ∀ j', j' < n →
        (ref_cols tile prev n (x + 1) s').getD j' [] =
          if tile_unchanged (tile (x + (j' + 1))) (prev (x + (j' + 1))) then []
          else tile_events (skip_before tile prev (x + (j' + 1))) (tile (x + (j' + 1))) := by
      intro s' hs' j' hj'
      rw [hs', ih (x + 1) j' hj']
      have e : x + 1 + j' = x + (j' + 1) := by omega
      rw [e]
    by_cases hu : tile_unchanged (tile x) (prev x) = true
    · cases j with
      | zero => simp only [ref_cols, if_pos hu, List.getD_cons_zero, Nat.add_zero]
      | succ j =>
        simp only [ref_cols, if_pos hu, List.getD_cons_succ]
        exact hstep _ (by rw [skip_before_succ, if_pos hu]) j (by omega)
    · cases j with
      | zero => simp only [ref_cols, if_neg hu, List.getD_cons_zero, Nat.add_zero]
      | succ j =>
        simp only [ref_cols, if_neg hu, List.getD_cons_succ]
        exact hstep _ (by rw [skip_before_succ, if_neg hu]) j (by omega)

/-- A stretch of unchanged tiles emits nothing. -/
theorem ref_cols_unchanged (tile prev : Nat → TCOD_ConsoleTile) (n : Nat) :
    ∀ (x s : Nat), (∀ x', x ≤ x' → x' < x + n → tile_unchanged (tile x') (prev x') = true) →
      (ref_cols tile prev n x s).flatten = [] := by
  induction n with
  | zero => intro x s _; rfl
  | succ n ih =>
    intro x s h
    have hu := h x (Nat.le_refl x) (by omega)
    simp only [ref_cols, if_pos hu, List.flatten_cons, List.nil_append]
    exact ih (x + 1) (s + 1) (fun x' h1 h2 => h x' (by omega) (by omega))

/-- A stretch of changed tiles, entered with the counter at zero, emits one glyph
per tile and no skip. -/
theorem ref_cols_changed (tile prev : Nat → TCOD_ConsoleTile) (n : Nat) :
    ∀ (x : Nat), (∀ x', x ≤ x' → x' < x + n → tile_unchanged (tile x') (prev x') = false) →
      (ref_cols tile prev n x 0).flatten = (List.range' x n).map (fun x' => glyph_of (tile x')) := by
  induction n with
  | zero => intro x _; rfl
  | succ n ih =>
    intro x h
    have hu : ¬ tile_unchanged (tile x) (prev x) = true := by
      rw [h x (Nat.le_refl x) (by omega)]; exact Bool.false_ne_true
    simp only [ref_cols, if_neg hu, List.flatten_cons, List.range', List.map_cons]
    rw [ih (x + 1) (fun x' h1 h2 => h x' (by omega) (by omega))]
    rfl

/-- A row whose only changed tile is at distance `j` from the current column: the
skip by the accumulated count, if it is not zero, then the glyph, then nothing. -/
theorem ref_cols_single (tile prev : Nat → TCOD_ConsoleTile) (j : Nat) :
    ∀ (n x s : Nat), j < n →
      (∀ x', x ≤ x' → x' < x + n → x' ≠ x + j → tile_unchanged (tile x') (prev x') = true) →
      tile_unchanged (tile (x + j)) (prev (x + j)) = false →
      (ref_cols tile prev n x s).flatten = tile_events (s + j) (tile (x + j)) := by
  induction j with
  | zero =>
    intro n x s hn hsame hdiff
    obtain ⟨m, rfl⟩ : ∃ m, n = m + 1 := ⟨n - 1, by omega⟩
    have hu : ¬ tile_unchanged (tile x) (prev x) = true := by
      have := hdiff; rw [Nat.add_zero] at this; rw [this]; exact Bool.false_ne_true
    simp only [ref_cols, if_neg hu, List.flatten_cons, Nat.add_zero]
    rw [ref_cols_unchanged tile prev m (x + 1) 0
      (fun x' h1 h2 => hsame x' (by omega) (by omega) (by omega))]
    exact List.append_nil _
  | succ j ih =>
    intro n x s hn hsame hdiff
    obtain ⟨m, rfl⟩ : ∃ m, n = m + 1 := ⟨n - 1, by omega⟩
    have hu := hsame x (Nat.le_refl x) (by omega) (by omega)
    simp only [ref_cols, if_pos hu, List.flatten_cons, List.nil_append]
    have e : x + (j + 1) = x + 1 + j := by omega
    rw [ih m (x + 1) (s + 1) (by omega)
      (fun x' h1 h2 h3 => hsame x' (by omega) (by omega) (by omega)) (by rw [← e]; exact hdiff)]
    rw [e]
    have e2 : s + 1 + j = s + (j + 1) := by omega
    rw [e2]

/-! ## Events of `xterm_present` by row and by tile -/

theorem present_trace_getD (blank : TCOD_ConsoleTile) (context : TCOD_RendererXterm)
    (console : TCOD_Console) (y : Nat) (hy : y < console.h) :
    (present_trace blank context console).getD y [] =
      [Emit.rowPos y] ::
        ref_cols (row_of console.w console.tiles y) (cache_row blank context console y)
          console.w 0 0 := by
  rw [present_trace_eq]
  simp [List.getD_eq_getElem?_getD, List.getElem?_map, List.getElem?_range hy]

/-- The events of the iteration for row `y`. -/
theorem events_row_eq (blank : TCOD_ConsoleTile) (context : TCOD_RendererXterm)
    (console : TCOD_Console) (y : Nat) (hy : y < console.h) :
    events_row blank context console y =
      Emit.rowPos y ::
        (ref_cols (row_of console.w console.tiles y) (cache_row blank context console y)
          console.w 0 0).flatten := by
  unfold events_row
  rw [present_trace_getD blank context console y hy]
  rfl

/-- The events of the iteration for the tile at column `x` of row `y`. -/
theorem events_at_eq (blank : TCOD_ConsoleTile) (context : TCOD_RendererXterm)
    (console : TCOD_Console) (x y : Nat) (hx : x < console.w) (hy : y < console.h) :
    events_at blank context console x y =
      if tile_unchanged (console.tile x y) (cache_row blank context console y x) then []
      else tile_events
        (skip_before (row_of console.w console.tiles y) (cache_row blank context console y) x)
        (console.tile x y) := by
  unfold events_at
  rw [present_trace_getD blank context console y hy, List.getD_cons_succ]
  have h := ref_cols_getD (row_of console.w console.tiles y)
    (cache_row blank context console y) console.w 0 x hx
  simp only [Nat.zero_add] at h
  exact h

/-! ## The encoder -/

theorem ucs4_to_utf8_of_neg (v : Int) (h : v < 0) : ucs4_to_utf8 v = [63, 0] := by
  unfold ucs4_to_utf8
  simp only [if_pos h]

theorem ucs4_to_utf8_of_large (v : Int) (h : 0x10FFFF < v) : ucs4_to_utf8 v = [63, 0] := by
  unfold ucs4_to_utf8
  simp only []
  rw [if_neg (by omega), if_neg (by omega), if_neg (by omega), if_neg (by omega),
    if_neg (by omega)]

theorem ucs4_to_utf8_in_range (v : Int) (h0 : 0 ≤ v) (h1 : v ≤ 0x10FFFF) :
    ucs4_to_utf8 v = utf8_canonical v.toNat ++ [0] := by
  obtain ⟨n, rfl⟩ := Int.eq_ofNat_of_zero_le h0
  rw [Int.toNat_ofNat]
  exact ucs4_to_utf8_nat n (by omega)

/-- The canonical bytes are `[63]` for the code point `0x3F` only. -/
theorem utf8_canonical_eq_question (n : Nat) (h : utf8_canonical n = [63]) : n = 63 := by
  unfold utf8_canonical at h
  split_ifs at h
  · simpa using h
  · simp at h
  · simp at h
  · simp at h

/-- The conformant decoder inverts the canonical encoding of every scalar value. -/
theorem utf8_decode_canonical (n : Nat) (h : n ≤ 0x10FFFF) (hs : ¬ (0xD800 ≤ n ∧ n ≤ 0xDFFF)) :
    utf8_decode (utf8_canonical n) = some n := by
  unfold utf8_canonical
  by_cases h1 : n ≤ 0x7F
  · rw [if_pos h1]
    simp only [utf8_decode, if_pos h1]
  · rw [if_neg h1]
    by_cases h2 : n ≤ 0x7FF
    · rw [if_pos h2]
      simp only [utf8_decode, isCont, bitField]
      norm_num
      refine ⟨by omega, by omega, by omega⟩
    · rw [if_neg h2]
      by_cases h3 : n ≤ 0xFFFF
      · rw [if_pos h3]
        simp only [utf8_decode, isCont, bitField]
        norm_num
        refine ⟨by omega, ⟨by omega, by omega⟩, by omega⟩
      · rw [if_neg h3]
        simp only [utf8_decode, isCont, bitField]
        norm_num
        refine ⟨by omega, ⟨by omega, by omega⟩, by omega⟩

/-- Claim C2. For every `v` in `[0, 0x10FFFF]` the bytes `ucs4_to_utf8` stores are the
canonical variable-length encoding of `v` (one byte `v` up to `0x7F`, `110xxxxx
10xxxxxx` up to `0x7FF`, `1110xxxx 10xxxxxx 10xxxxxx` up to `0xFFFF`, `11110xxx
10xxxxxx 10xxxxxx 10xxxxxx` up to `0x10FFFF`, the `x` bits being the bits of `v` from
most to least significant), followed by the terminating zero. -/
theorem C2_ucs4_to_utf8_canonical (v : Int) (h0 : 0 ≤ v) (h1 : v ≤ 0x10FFFF) :
    ucs4_to_utf8 v = utf8_canonical v.toNat ++ [0] ∧ encoded v = utf8_canonical v.toNat := by
  have h := ucs4_to_utf8_in_range v h0 h1
  refine ⟨h, ?_⟩
  unfold encoded
  rw [h, List.dropLast_concat]

/-- Witness for C2: the euro sign `U+20AC` is encoded as `E2 82 AC`. -/
theorem C2_witness :
    ((0 : Int) ≤ 0x20AC ∧ (0x20AC : Int) ≤ 0x10FFFF) ∧
      ucs4_to_utf8 0x20AC = utf8_canonical (0x20AC : Int).toNat ++ [0] ∧
      encoded 0x20AC = utf8_canonical (0x20AC : Int).toNat ∧
      encoded 0x20AC = [0xE2, 0x82, 0xAC] :=
  ⟨⟨by decide, by decide⟩,
    (C2_ucs4_to_utf8_canonical 0x20AC (by decide) (by decide)).1,
    (C2_ucs4_to_utf8_canonical 0x20AC (by decide) (by decide)).2, by decide⟩

/-- Counterexample to C3 as stated: the surrogate code point `0xD800` lies in
`[0, 0x10FFFF]`, is encoded as `ED A0 80`, and a conformant decoder rejects these
bytes. -/
theorem C3_counterexample :
    encoded 0xD800 = [0xED, 0xA0, 0x80] ∧ utf8_decode (encoded 0xD800) = none := by
  decide

/-- Claim C3, amended. For every `v` in `[0, 0x10FFFF]` that is not a surrogate
(`0xD800..0xDFFF`), decoding the bytes produced by `ucs4_to_utf8 v` with a conformant
decoder succeeds and yields `v`. -/
theorem C3_roundtrip_scalar (v : Int) (h0 : 0 ≤ v) (h1 : v ≤ 0x10FFFF)
    (hs : ¬ (0xD800 ≤ v ∧ v ≤ 0xDFFF)) :
    utf8_decode (encoded v) = some v.toNat ∧ (v.toNat : Int) = v := by
  refine ⟨?_, Int.toNat_of_nonneg h0⟩
  unfold encoded
  rw [ucs4_to_utf8_in_range v h0 h1, List.dropLast_concat]
  exact utf8_decode_canonical v.toNat (by omega) (by omega)

/-- Witness for C3, amended: `U+1F600` round-trips. -/
theorem C3_witness :
    ((0 : Int) ≤ 0x1F600 ∧ (0x1F600 : Int) ≤ 0x10FFFF ∧
        ¬ ((0xD800 : Int) ≤ 0x1F600 ∧ (0x1F600 : Int) ≤ 0xDFFF)) ∧
      utf8_decode (encoded 0x1F600) = some (0x1F600 : Int).toNat ∧
      (((0x1F600 : Int).toNat : Nat) : Int) = 0x1F600 :=
  ⟨⟨by decide, by decide, by decide⟩,
    C3_roundtrip_scalar 0x1F600 (by decide) (by decide) (by decide)⟩

/-- Claim C4. For every `v` outside `[0, 0x10FFFF]`, negative or above, `ucs4_to_utf8 v`
stores exactly the byte `'?'` and the terminator; and for `v` inside `[0, 0x10FFFF]`
the result is the single byte `'?'` only when `v` is `0x3F`. -/
theorem C4_question_mark (v : Int) :
    ((v < 0 ∨ 0x10FFFF < v) → ucs4_to_utf8 v = [63, 0] ∧ encoded v = [63]) ∧
      ((0 ≤ v ∧ v ≤ 0x10FFFF) → (ucs4_to_utf8 v = [63, 0] ∨ encoded v = [63]) → v = 0x3F) := by
  constructor
  · intro h
    have hq : ucs4_to_utf8 v = [63, 0] := by
      rcases h with h | h
      · exact ucs4_to_utf8_of_neg v h
      · exact ucs4_to_utf8_of_large v h
    exact ⟨hq, by unfold encoded; rw [hq]; rfl⟩
  · intro h hq
    have hc := ucs4_to_utf8_in_range v h.1 h.2
    have he : utf8_canonical v.toNat = [63] := by
      rcases hq with hq | hq
      · rw [hc] at hq
        have : (utf8_canonical v.toNat ++ [0]).dropLast = ([63, 0] : List Nat).dropLast := by
          rw [hq]
        rw [List.dropLast_concat] at this
        exact this
      · unfold encoded at hq
        rw [hc, List.dropLast_concat] at hq
        exact hq
    have := utf8_canonical_eq_question v.toNat he
    omega

/-- Witness for C4: `-1` and `0x110000` give `'?'`, and `'A'` does not. -/
theorem C4_witness :
    (ucs4_to_utf8 (-1) = [63, 0] ∧ encoded (-1) = [63]) ∧
      (ucs4_to_utf8 0x110000 = [63, 0] ∧ encoded 0x110000 = [63]) ∧
      ((ucs4_to_utf8 0x3F = [63, 0] ∨ encoded 0x3F = [63]) → (0x3F : Int) = 0x3F) :=
  ⟨(C4_question_mark (-1)).1 (by decide), (C4_question_mark 0x110000).1 (by decide),
    (C4_question_mark 0x3F).2 (by decide)⟩

/-! ## The cache -/

theorem ensure_cache_fresh (blank : TCOD_ConsoleTile) (console : TCOD_Console) :
    ensure_cache blank fresh console = sentinel_cache blank console.w console.h := by
  simp [ensure_cache, fresh, sentinel_cache, TCOD_console_new]

/-- A cache of other dimensions is discarded and re-created with every character `-1`. -/
theorem ensure_cache_resize (blank : TCOD_ConsoleTile) (context : TCOD_RendererXterm)
    (c console : TCOD_Console) (hc : context.cache = some c)
    (hd : c.w ≠ console.w ∨ c.h ≠ console.h) :
    ensure_cache blank context console = sentinel_cache blank console.w console.h := by
  simp [ensure_cache, hc, hd, sentinel_cache, TCOD_console_new]

/-- A cache of the dimensions of the frame is kept. -/
theorem ensure_cache_keep (blank : TCOD_ConsoleTile) (context : TCOD_RendererXterm)
    (c console : TCOD_Console) (hc : context.cache = some c)
    (hw : c.w = console.w) (hh : c.h = console.h) :
    ensure_cache blank context console = c := by
  simp [ensure_cache, hc, hw, hh]

theorem index_lt (w h x y : Nat) (hx : x < w) (hy : y < h) : w * y + x < w * h := by
  have h1 : w * (y + 1) ≤ w * h := Nat.mul_le_mul_left _ hy
  rw [Nat.mul_succ] at h1
  omega

theorem sentinel_cache_getD (blank : TCOD_ConsoleTile) (w h i : Nat) (hi : i < w * h) :
    (sentinel_cache blank w h).tiles.getD i default = { blank with ch := -1 } := by
  simp [sentinel_cache, List.getD_eq_getElem?_getD, List.getElem?_replicate_of_lt hi]

theorem getD_mem {α : Type} (l : List α) (i : Nat) (d : α) (hi : i < l.length) :
    l.getD i d ∈ l := by
  rw [List.getD_eq_getElem?_getD, List.getElem?_eq_getElem hi]
  exact List.getElem_mem hi

/-- The output of `xterm_present`, row by row. -/
theorem xterm_present_out_rows (blank : TCOD_ConsoleTile) (context : TCOD_RendererXterm)
    (console : TCOD_Console) :
    (xterm_present blank context console).2 =
      Emit.hideCursor ::
        ((List.range console.h).map (fun y =>
          Emit.rowPos y ::
            (ref_cols (row_of console.w console.tiles y) (cache_row blank context console y)
              console.w 0 0).flatten)).flatten := by
  rw [xterm_present_out, present_trace_eq, List.map_map]
  rfl

/-- The tiles of the cache after a call: every cell holds the merged tile. -/
theorem xterm_present_cache (blank : TCOD_ConsoleTile) (context : TCOD_RendererXterm)
    (console : TCOD_Console) :
    (xterm_present blank context console).1.cache =
      some { ensure_cache blank context console with
        tiles := (scan_rows console console.h 0 (ensure_cache blank context console).tiles).1 } :=
  rfl

/-- After a call on a renderer whose cache, once ensured, has `w * h` tiles, the cell
of every tile of the frame compares equal to that tile. -/
theorem scan_rows_unchanged_after (console : TCOD_Console) (cache : List TCOD_ConsoleTile)
    (hlen : cache.length = console.w * console.h) (x y : Nat)
    (hx : x < console.w) (hy : y < console.h) :
    tile_unchanged (console.tiles.getD (console.w * y + x) default)
      ((scan_rows console console.h 0 cache).1.getD (console.w * y + x) default) = true := by
  rw [scan_rows_cache]
  have hi := index_lt console.w console.h x y hx hy
  rw [if_pos ⟨by omega, by omega, by omega⟩]
  exact tile_unchanged_merge _ _

/-- If every tile of the frame compares equal to its cache cell, the call emits the
cursor-hide call and the row-position calls only. -/
theorem xterm_present_out_unchanged (blank : TCOD_ConsoleTile) (context : TCOD_RendererXterm)
    (console : TCOD_Console)
    (h : ∀ x y, x < console.w → y < console.h →
      tile_unchanged (console.tile x y) (cache_row blank context console y x) = true) :
    (xterm_present blank context console).2 =
      Emit.hideCursor :: (List.range console.h).map Emit.rowPos := by
  rw [xterm_present_out_rows]
  congr 1
  have hrow : (List.range console.h).map (fun y =>
      Emit.rowPos y ::
        (ref_cols (row_of console.w console.tiles y) (cache_row blank context console y)
          console.w 0 0).flatten) = (List.range console.h).map (fun y => [Emit.rowPos y]) := by
    apply List.map_congr_left
    intro y hy
    rw [List.mem_range] at hy
    rw [ref_cols_unchanged (row_of console.w console.tiles y) _ console.w 0 0
      (fun x' _ hx' => h x' y (by omega) hy)]
  rw [hrow]
  generalize List.range console.h = l
  induction l with
  | nil => rfl
  | cons a l ih => simp only [List.map_cons, List.flatten_cons, ih]; rfl

/-- If every tile of the frame differs from its cache cell, the call repaints every
tile. -/
theorem xterm_present_out_changed (blank : TCOD_ConsoleTile) (context : TCOD_RendererXterm)
    (console : TCOD_Console)
    (h : ∀ x y, x < console.w → y < console.h →
      tile_unchanged (console.tile x y) (cache_row blank context console y x) = false) :
    (xterm_present blank context console).2 = full_repaint console := by
  rw [xterm_present_out_rows]
  unfold full_repaint
  congr 2
  apply List.map_congr_left
  intro y hy
  rw [List.mem_range] at hy
  rw [ref_cols_changed (row_of console.w console.tiles y) _ console.w 0
      (fun x' _ hx' => h x' y (by omega) hy),
    List.range_eq_range']
  rfl

theorem countP_flatten_const (p : Emit → Bool) (k : Nat) (rows : List (List Emit))
    (h : ∀ r ∈ rows, r.countP p = k) : rows.flatten.countP p = rows.length * k := by
  induction rows with
  | nil => simp
  | cons r rows ih =>
    rw [List.flatten_cons, List.countP_append, h r (List.mem_cons_self _ _),
      ih (fun r' hr' => h r' (List.mem_cons_of_mem _ hr')), List.length_cons, Nat.succ_mul]
    omega

/-- A full repaint has one glyph per tile. -/
theorem full_repaint_glyphs (console : TCOD_Console) :
    (full_repaint console).countP Emit.isGlyph = console.w * console.h := by
  unfold full_repaint
  rw [List.countP_cons, countP_flatten_const Emit.isGlyph console.w]
  · simp [Emit.isGlyph, Nat.mul_comm]
  · intro r hr
    rw [List.mem_map] at hr
    obtain ⟨y, _, rfl⟩ := hr
    rw [List.countP_cons]
    have : ((List.range console.w).map (fun x => glyph_of (console.tile x y))).countP Emit.isGlyph
        = ((List.range console.w).map (fun x => glyph_of (console.tile x y))).length := by
      rw [List.countP_eq_length]
      intro a ha
      rw [List.mem_map] at ha
      obtain ⟨x, _, rfl⟩ := ha
      rfl
    rw [this]
    simp [Emit.isGlyph]

/-- A full repaint has no skip. -/
theorem full_repaint_skips (console : TCOD_Console) :
    (full_repaint console).countP Emit.isSkip = 0 := by
  rw [List.countP_eq_zero]
  intro a ha
  unfold full_repaint at ha
  rw [List.mem_cons, List.mem_flatten] at ha
  rcases ha with rfl | ⟨r, hr, har⟩
  · simp [Emit.isSkip]
  · rw [List.mem_map] at hr
    obtain ⟨y, _, rfl⟩ := hr
    rw [List.mem_cons, List.mem_map] at har
    rcases har with rfl | ⟨x, _, rfl⟩
    · simp [Emit.isSkip]
    · simp [Emit.isSkip, glyph_of]

/-! ## Presenting -/

theorem stream_rows (l : List Nat) :
    stream (Emit.hideCursor :: l.map Emit.rowPos) =
      str "\x1b[?25l" ++ (l.map (fun y => str "\x1b[" ++ dec y ++ str ";0H")).flatten := by
  unfold stream
  rw [List.map_cons, List.flatten_cons, List.map_map]
  rfl

/-- The cells the second of two calls with the same frame compares with. -/
theorem cache_row_second (blank : TCOD_ConsoleTile) (F : TCOD_Console) (x y : Nat)
    (hx : x < F.w) (hy : y < F.h) :
    tile_unchanged (F.tile x y)
      (cache_row blank (xterm_present blank fresh F).1 F y x) = true := by
  have hk : ensure_cache blank (xterm_present blank fresh F).1 F =
      { ensure_cache blank fresh F with
        tiles := (scan_rows F F.h 0 (ensure_cache blank fresh F).tiles).1 } := by
    apply ensure_cache_keep blank _ _ F (xterm_present_cache blank fresh F)
    · rw [ensure_cache_fresh]; rfl
    · rw [ensure_cache_fresh]; rfl
  unfold cache_row row_of
  rw [hk]
  apply scan_rows_unchanged_after F _ _ x y hx hy
  rw [ensure_cache_fresh]
  simp [sentinel_cache]

/-- Claim C1. For every frame `F`, presenting `F` to a fresh renderer and then `F` again
produces on the second call exactly the cursor-hide call followed by one
row-position call for each `y = 0 .. h - 1` in ascending order, that is the bytes
`ESC[?25l` then `ESC[y;0H` for each row: no glyph and no skip. -/
theorem C1_second_present_rows_only (blank : TCOD_ConsoleTile) (F : TCOD_Console) :
    (xterm_present blank (xterm_present blank fresh F).1 F).2 =
        Emit.hideCursor :: (List.range F.h).map Emit.rowPos ∧
      stream (xterm_present blank (xterm_present blank fresh F).1 F).2 =
        str "\x1b[?25l" ++
          ((List.range F.h).map (fun y => str "\x1b[" ++ dec y ++ str ";0H")).flatten ∧
      (xterm_present blank (xterm_present blank fresh F).1 F).2.countP Emit.isGlyph = 0 ∧
      (xterm_present blank (xterm_present blank fresh F).1 F).2.countP Emit.isSkip = 0 := by
  have h := xterm_present_out_unchanged blank (xterm_present blank fresh F).1 F
    (fun x y hx hy => cache_row_second blank F x y hx hy)
  rw [h, stream_rows]
  refine ⟨rfl, rfl, ?_, ?_⟩
  · rw [List.countP_eq_zero]
    intro a ha
    rw [List.mem_cons, List.mem_map] at ha
    rcases ha with rfl | ⟨y, _, rfl⟩ <;> simp [Emit.isGlyph]
  · rw [List.countP_eq_zero]
    intro a ha
    rw [List.mem_cons, List.mem_map] at ha
    rcases ha with rfl | ⟨y, _, rfl⟩ <;> simp [Emit.isSkip]

theorem tile_events_ne_nil (k : Nat) (t : TCOD_ConsoleTile) : tile_events k t ≠ [] := by
  unfold tile_events
  simp

theorem tile_events_glyphs (k : Nat) (t : TCOD_ConsoleTile) :
    (tile_events k t).filter Emit.isGlyph = [glyph_of t] := by
  unfold tile_events
  by_cases hk : k ≠ 0
  · rw [if_pos hk]; rfl
  · rw [if_neg hk]; rfl

/-- For a value in `[0, 0x10FFFF]`, what `%s` writes is the single `'?'` exactly for
`0x3F`. -/
theorem cstr_eq_question_iff (v : Int) (h0 : 0 ≤ v) (h1 : v ≤ 0x10FFFF) :
    cstr (ucs4_to_utf8 v) = [63] ↔ v = 0x3F := by
  constructor
  · intro h
    obtain ⟨n, rfl⟩ := Int.eq_ofNat_of_zero_le h0
    rw [ucs4_to_utf8_nat n (by omega)] at h
    have hn : n = 63 := by
      unfold utf8_canonical cstr at h
      split_ifs at h with c1 c2 c3
      · by_cases hz : n = 0
        · subst hz; simp at h
        · simp [List.takeWhile_cons, hz] at h
          exact h
      · simp [List.takeWhile_cons] at h
      · simp [List.takeWhile_cons] at h
      · simp [List.takeWhile_cons] at h
    omega
  · intro h
    subst h
    decide

/-- Counterexample to C6 as stated: the character `0x200041` is above `0x10FFFF`, the
tile differs from the cell of a new cache, and the character bytes written for it
are `'A'`, not `'?'`. -/
theorem C6_counterexample :
    tile_unchanged ((⟨1, 1, [⟨0x200041, white, black⟩]⟩ : TCOD_Console).tile 0 0)
        (cache_row blank_tile fresh ⟨1, 1, [⟨0x200041, white, black⟩]⟩ 0 0) = false ∧
      (events_at blank_tile fresh ⟨1, 1, [⟨0x200041, white, black⟩]⟩ 0 0).map Emit.char_bytes =
        [[65]] ∧
      ucs4_to_utf8 0x200041 = [63, 0] := by
  decide

/-- What `%s` writes for the buffer of the encoder is the single `'?'` exactly when
the encoder stored `'?'`. -/
theorem cstr_question_iff_buffer (v : Int) :
    cstr (ucs4_to_utf8 v) = [63] ↔ ucs4_to_utf8 v = [63, 0] := by
  by_cases hr : 0 ≤ v ∧ v ≤ 0x10FFFF
  · rw [cstr_eq_question_iff v hr.1 hr.2]
    constructor
    · intro h; subst h; decide
    · intro h
      have hc := ucs4_to_utf8_in_range v hr.1 hr.2
      rw [hc] at h
      have hd : (utf8_canonical v.toNat ++ [0]).dropLast = ([63, 0] : List Nat).dropLast := by
        rw [h]
      rw [List.dropLast_concat] at hd
      have := utf8_canonical_eq_question v.toNat hd
      omega
  · have hq : ucs4_to_utf8 v = [63, 0] := by
      by_cases hn : v < 0
      · exact ucs4_to_utf8_of_neg v hn
      · exact ucs4_to_utf8_of_large v (by omega)
    rw [hq]
    exact ⟨fun _ => rfl, fun _ => by decide⟩

/-- Claim C6, amended. For every frame tile that differs from the cache, whether or
not its character is a valid code point, the iteration emits exactly one glyph call,
and its character bytes are what `%s` writes for `ucs4_to_utf8` applied to the masked
character `ch & 0x10FFFF`, the value `xterm_present` passes to the encoder, not to
`ch` itself; they are the single byte `'?'` exactly when the encoder stores `'?'` for
that masked value. -/
theorem C6_character_bytes_of_masked (blank : TCOD_ConsoleTile) (context : TCOD_RendererXterm)
    (F : TCOD_Console) (x y : Nat) (hx : x < F.w) (hy : y < F.h)
    (hd : tile_unchanged (F.tile x y) (cache_row blank context F y x) = false) :
    (events_at blank context F x y).filter Emit.isGlyph =
        [Emit.glyph (F.tile x y).fg (F.tile x y).bg
          (ucs4_to_utf8 (int_and (F.tile x y).ch 0x10FFFF))] ∧
      ((events_at blank context F x y).filter Emit.isGlyph).map Emit.char_bytes =
        [cstr (ucs4_to_utf8 (int_and (F.tile x y).ch 0x10FFFF))] ∧
      (cstr (ucs4_to_utf8 (int_and (F.tile x y).ch 0x10FFFF)) = [63] ↔
        ucs4_to_utf8 (int_and (F.tile x y).ch 0x10FFFF) = [63, 0]) := by
  have hu : ¬ tile_unchanged (F.tile x y) (cache_row blank context F y x) = true := by
    rw [hd]; exact Bool.false_ne_true
  rw [events_at_eq blank context F x y hx hy, if_neg hu, tile_events_glyphs]
  exact ⟨rfl, rfl, cstr_question_iff_buffer _⟩

/-- Witness for C6, amended: a new cache and the tile `-1` white on `(1, 0, 0)`; the
tile is changed and its character bytes are those of `0x10FFFF`. -/
theorem C6_witness :
    (0 < 1 ∧ 0 < 1 ∧
        tile_unchanged ((⟨1, 1, [⟨-1, white, ⟨1, 0, 0⟩⟩]⟩ : TCOD_Console).tile 0 0)
          (cache_row blank_tile fresh ⟨1, 1, [⟨-1, white, ⟨1, 0, 0⟩⟩]⟩ 0 0) = false) ∧
      ((events_at blank_tile fresh ⟨1, 1, [⟨-1, white, ⟨1, 0, 0⟩⟩]⟩ 0 0).filter Emit.isGlyph).map
          Emit.char_bytes = [[0xF4, 0x8F, 0xBF, 0xBF]] := by
  refine ⟨⟨by decide, by decide, by decide⟩, ?_⟩
  rw [(C6_character_bytes_of_masked blank_tile fresh ⟨1, 1, [⟨-1, white, ⟨1, 0, 0⟩⟩]⟩ 0 0
    (by decide) (by decide) (by decide)).2.1]
  decide

theorem tile_changed_of_ch (t p : TCOD_ConsoleTile) (h : t.ch ≠ p.ch) :
    tile_unchanged t p = false := by
  rw [← Bool.not_eq_true, tile_unchanged_iff]
  exact fun hh => h hh.1

/-- Against a cache whose characters are all `-1`, every tile of a well-formed frame
without the character `-1` is changed. -/
theorem changed_against_sentinel (blank : TCOD_ConsoleTile) (context : TCOD_RendererXterm)
    (F : TCOD_Console) (hF : F.wf) (hs : ∀ t ∈ F.tiles, t.ch ≠ -1)
    (he : ensure_cache blank context F = sentinel_cache blank F.w F.h)
    (x y : Nat) (hx : x < F.w) (hy : y < F.h) :
    tile_unchanged (F.tile x y) (cache_row blank context F y x) = false := by
  have hi := index_lt F.w F.h x y hx hy
  apply tile_changed_of_ch
  unfold cache_row row_of
  rw [he, sentinel_cache_getD blank F.w F.h _ hi]
  exact hs _ (getD_mem _ _ _ (by rw [hF]; exact hi))

/-- Counterexample to C7 as stated: a frame may hold the character `-1`.  The 1 by 1
frame whose tile is `-1` in the colours of a new console tile is presented to a
fresh renderer: the tile is skipped, no glyph is emitted.  This is so whatever the
tile of a new console. -/
theorem C7_counterexample :
    (xterm_present blank_tile fresh ⟨1, 1, [⟨-1, white, black⟩]⟩).2 =
        [Emit.hideCursor, Emit.rowPos 0] ∧
      (xterm_present blank_tile fresh ⟨1, 1, [⟨-1, white, black⟩]⟩).2.countP Emit.isGlyph ≠ 1 * 1 ∧
      (∀ blank : TCOD_ConsoleTile,
        (xterm_present blank fresh ⟨1, 1, [{ blank with ch := -1 }]⟩).2 =
          [Emit.hideCursor, Emit.rowPos 0]) := by
  refine ⟨by decide, by decide, ?_⟩
  intro blank
  have h := xterm_present_out_unchanged blank fresh ⟨1, 1, [{ blank with ch := -1 }]⟩
    (fun x y hx hy => by
      have hx0 : x = 0 := by simp only at hx; omega
      have hy0 : y = 0 := by simp only at hy; omega
      subst hx0 hy0
      unfold cache_row row_of
      rw [ensure_cache_fresh]
      exact tile_unchanged_self _)
  exact h

/-- Claim C7, amended. For every well-formed frame of width `w` and height `h` none of
whose tiles has the character `-1`, the first `xterm_present` on a fresh renderer
treats every tile as changed: the output is the full repaint, with exactly `w * h`
glyph calls, one per tile, and no skip. -/
theorem C7_first_present_full_repaint (blank : TCOD_ConsoleTile) (F : TCOD_Console)
    (hF : F.wf) (hs : ∀ t ∈ F.tiles, t.ch ≠ -1) :
    (xterm_present blank fresh F).2 = full_repaint F ∧
      (xterm_present blank fresh F).2.countP Emit.isGlyph = F.w * F.h ∧
      (xterm_present blank fresh F).2.countP Emit.isSkip = 0 := by
  have h := xterm_present_out_changed blank fresh F
    (changed_against_sentinel blank fresh F hF hs (ensure_cache_fresh blank F))
  rw [h]
  exact ⟨rfl, full_repaint_glyphs F, full_repaint_skips F⟩

/-- Witness for C7, amended: the frame `[A, A, B]` white on black yields three glyph
calls and no skip. -/
theorem C7_witness :
    frame_AAB.wf ∧ (∀ t ∈ frame_AAB.tiles, t.ch ≠ -1) ∧
      (xterm_present blank_tile fresh frame_AAB).2.countP Emit.isGlyph = 3 ∧
      (xterm_present blank_tile fresh frame_AAB).2.countP Emit.isSkip = 0 :=
  ⟨by decide, by decide,
    (C7_first_present_full_repaint blank_tile frame_AAB (by decide) (by decide)).2⟩

/-- Counterexample to C8 as stated: the cache is 1 by 1, the frame 2 by 1 with first
tile `-1` in the colours of a new console tile.  The cache is re-created, the first
tile is skipped: one glyph instead of two, and one skip. -/
theorem C8_counterexample :
    (xterm_present blank_tile ⟨some ⟨1, 1, [⟨65, white, black⟩]⟩⟩
        ⟨2, 1, [⟨-1, white, black⟩, ⟨65, white, black⟩]⟩).2 =
      [Emit.hideCursor, Emit.rowPos 0, Emit.skip 1, Emit.glyph white black [65, 0]] ∧
      (xterm_present blank_tile ⟨some ⟨1, 1, [⟨65, white, black⟩]⟩⟩
        ⟨2, 1, [⟨-1, white, black⟩, ⟨65, white, black⟩]⟩).2.countP Emit.isGlyph ≠ 2 * 1 := by
  decide

/-- Claim C8, amended. For every renderer whose cache has dimensions `(w1, h1)` and
every well-formed frame of dimensions `(w2, h2)` with `w1 ≠ w2` or `h1 ≠ h2`, none of
whose tiles has the character `-1`: `xterm_present` discards the cache and re-creates
it at `(w2, h2)` with `w2 * h2` tiles, every character `-1`, and treats every tile of
the frame as changed, emitting the full repaint, `w2 * h2` glyph calls and no skip,
whatever the old cache holds. -/
theorem C8_resize_full_repaint (blank : TCOD_ConsoleTile) (context : TCOD_RendererXterm)
    (c F : TCOD_Console) (hc : context.cache = some c) (hd : c.w ≠ F.w ∨ c.h ≠ F.h)
    (hF : F.wf) (hs : ∀ t ∈ F.tiles, t.ch ≠ -1) :
    ((ensure_cache blank context F).w = F.w ∧ (ensure_cache blank context F).h = F.h ∧
        (ensure_cache blank context F).tiles.length = F.w * F.h ∧
        ∀ t ∈ (ensure_cache blank context F).tiles, t.ch = -1) ∧
      (xterm_present blank context F).2 = full_repaint F ∧
      (xterm_present blank context F).2.countP Emit.isGlyph = F.w * F.h ∧
      (xterm_present blank context F).2.countP Emit.isSkip = 0 := by
  have he := ensure_cache_resize blank context c F hc hd
  have h := xterm_present_out_changed blank context F
    (changed_against_sentinel blank context F hF hs he)
  rw [h, he]
  refine ⟨⟨rfl, rfl, ?_, ?_⟩, rfl, full_repaint_glyphs F, full_repaint_skips F⟩
  · simp [sentinel_cache]
  · intro t ht
    simp only [sentinel_cache] at ht
    rw [List.eq_of_mem_replicate ht]

/-- Witness for C8, amended: a 2 by 3 cache and a 3 by 2 frame of `A`s, the same
number of tiles. -/
theorem C8_witness :
    (((2 : Nat) ≠ 3 ∨ (3 : Nat) ≠ 2) ∧
        (⟨3, 2, List.replicate 6 ⟨65, white, black⟩⟩ : TCOD_Console).wf ∧
        ∀ t ∈ (⟨3, 2, List.replicate 6 ⟨65, white, black⟩⟩ : TCOD_Console).tiles, t.ch ≠ -1) ∧
      ((xterm_present blank_tile
        ⟨some ⟨2, 3, List.replicate 6 ⟨65, white, black⟩⟩⟩
        ⟨3, 2, List.replicate 6 ⟨65, white, black⟩⟩).2.countP Emit.isGlyph = 3 * 2) ∧
      ((xterm_present blank_tile
        ⟨some ⟨2, 3, List.replicate 6 ⟨65, white, black⟩⟩⟩
        ⟨3, 2, List.replicate 6 ⟨65, white, black⟩⟩).2.countP Emit.isSkip = 0) :=
  ⟨⟨by decide, by decide, by decide⟩,
    (C8_resize_full_repaint blank_tile ⟨some ⟨2, 3, List.replicate 6 ⟨65, white, black⟩⟩⟩
      ⟨2, 3, List.replicate 6 ⟨65, white, black⟩⟩ ⟨3, 2, List.replicate 6 ⟨65, white, black⟩⟩
      rfl (by decide) (by decide) (by decide)).2.2⟩

/-! ## Session lifecycle -/

/-- Counterexample to C9 as stated: after a successful initialisation, the explicit
teardown followed by the exit hook writes the teardown sequence twice, and so does
the reverse order. -/
theorem C9_counterexample :
    (run_destructor_then_exit none).out = [Emit.setup, Emit.teardown, Emit.teardown] ∧
      teardown_count (run_destructor_then_exit none) = 2 ∧
      (run_exit_then_destructor none).out = [Emit.setup, Emit.teardown, Emit.teardown] ∧
      teardown_count (run_exit_then_destructor none) = 2 ∧
      stream (run_destructor_then_exit none).out =
        str "\x1b[?1049h\x1b[2J\x1b[?25l" ++ str "\x1b[2J\x1b[?1049l\x1b[?25h" ++
          str "\x1b[2J\x1b[?1049l\x1b[?25h" := by
  decide

/-- Claim C9, amended. In every run in which a successful `TCOD_renderer_init_xterm`
is followed by both `xterm_destructor` and the exit hook `xterm_cleanup`, in either
order, each of the two invocations writes the teardown sequence: `xterm_cleanup` is
unconditional, every call of it appends the sequence, and the sequence is written
twice in all. -/
theorem C9_teardown_written_by_each_call (window_title : Option (List Nat)) :
    (∀ p : Process, (xterm_cleanup p).out = p.out ++ [Emit.teardown]) ∧
      (∀ (p : Process) (r : TCOD_RendererXterm),
        (xterm_destructor p r).out = p.out ++ [Emit.teardown]) ∧
      (run_destructor_then_exit window_title).out =
        (TCOD_renderer_init_xterm Process.initial true true window_title).1.out ++
          [Emit.teardown, Emit.teardown] ∧
      (run_exit_then_destructor window_title).out =
        (TCOD_renderer_init_xterm Process.initial true true window_title).1.out ++
          [Emit.teardown, Emit.teardown] ∧
      teardown_count (run_destructor_then_exit window_title) = 2 ∧
      teardown_count (run_exit_then_destructor window_title) = 2 := by
  refine ⟨fun _ => rfl, fun _ _ => rfl, ?_⟩
  cases window_title with
  | none => decide
  | some t =>
    refine ⟨rfl, rfl, ?_, ?_⟩
    · simp [teardown_count, run_destructor_then_exit, TCOD_renderer_init_xterm, process_exit,
        xterm_destructor, xterm_cleanup, ExitHandler.run, Process.initial]
    · simp [teardown_count, run_exit_then_destructor, TCOD_renderer_init_xterm, process_exit,
        xterm_destructor, xterm_cleanup, ExitHandler.run, Process.initial]

/-! ## A row with one changed tile -/

/-- Claim C10. For every row `y` of a frame in which exactly one tile, at column `k`,
differs from the cache, the calls `xterm_present` makes in the iteration for that row
are: the row-position call, then the skip `ESC[kC` if and only if `k > 0`, then the
glyph call of that tile, and nothing for the unchanged tiles that follow. -/
theorem C10_row_with_single_change (blank : TCOD_ConsoleTile) (context : TCOD_RendererXterm)
    (F : TCOD_Console) (y k : Nat) (hy : y < F.h) (hk : k < F.w)
    (hsame : ∀ x, x < F.w → x ≠ k →
      tile_unchanged (F.tile x y) (cache_row blank context F y x) = true)
    (hdiff : tile_unchanged (F.tile k y) (cache_row blank context F y k) = false) :
    events_row blank context F y =
        [Emit.rowPos y] ++ (if 0 < k then [Emit.skip k] else []) ++ [glyph_of (F.tile k y)] ∧
      stream (events_row blank context F y) =
        (str "\x1b[" ++ dec y ++ str ";0H") ++
          (if 0 < k then str "\x1b[" ++ dec k ++ str "C" else []) ++
          (glyph_of (F.tile k y)).bytes := by
  have h := ref_cols_single (row_of F.w F.tiles y) (cache_row blank context F y) k F.w 0 0 hk
    (fun x' _ h2 h3 => hsame x' (by omega) (by omega))
    (by rw [Nat.zero_add]; exact hdiff)
  simp only [Nat.zero_add] at h
  have he : events_row blank context F y =
      [Emit.rowPos y] ++ (if 0 < k then [Emit.skip k] else []) ++ [glyph_of (F.tile k y)] := by
    rw [events_row_eq blank context F y hy, h]
    unfold tile_events
    by_cases h0 : 0 < k
    · rw [if_pos h0, if_pos (by omega)]; rfl
    · rw [if_neg h0, if_neg (by omega)]; rfl
  refine ⟨he, ?_⟩
  rw [he]
  by_cases h0 : 0 < k
  · simp only [if_pos h0, stream, List.map_append, List.map_cons, List.map_nil,
      List.flatten_append, List.flatten_cons, List.flatten_nil, List.append_nil, Emit.bytes]
  · simp only [if_neg h0, stream, List.map_append, List.map_cons, List.map_nil,
      List.flatten_append, List.flatten_cons, List.flatten_nil, List.append_nil, Emit.bytes]

/-- Witness for C10: after `[A, A, B]` has been presented twice, presenting
`[A, C, B]` writes exactly
`ESC[?25l ESC[0;0H ESC[1C ESC[38;2;255;255;255;48;2;0;0;0m C`. -/
theorem C10_witness :
    (0 < frame_ACB.h ∧ 1 < frame_ACB.w ∧
        (∀ x, x < frame_ACB.w → x ≠ 1 →
          tile_unchanged (frame_ACB.tile x 0)
            (cache_row blank_tile after_two_presents frame_ACB 0 x) = true) ∧
        tile_unchanged (frame_ACB.tile 1 0)
          (cache_row blank_tile after_two_presents frame_ACB 0 1) = false) ∧
      (events_row blank_tile after_two_presents frame_ACB 0 =
          [Emit.rowPos 0] ++ (if 0 < 1 then [Emit.skip 1] else []) ++
            [glyph_of (frame_ACB.tile 1 0)] ∧
        stream (events_row blank_tile after_two_presents frame_ACB 0) =
          (str "\x1b[" ++ dec 0 ++ str ";0H") ++
            (if 0 < 1 then str "\x1b[" ++ dec 1 ++ str "C" else []) ++
            (glyph_of (frame_ACB.tile 1 0)).bytes) ∧
      stream (xterm_present blank_tile after_two_presents frame_ACB).2 =
        str "\x1b[?25l\x1b[0;0H\x1b[1C\x1b[38;2;255;255;255;48;2;0;0;0mC" :=
  ⟨⟨by decide, by decide, by decide, by decide⟩,
    C10_row_with_single_change blank_tile after_two_presents frame_ACB 0 1
      (by decide) (by decide) (by decide) (by decide),
    by decide⟩

/-! ## The cache after a call -/

/-- After the size check and the allocation the cache has the dimensions of the
frame and `w * h` tiles. -/
theorem ensure_cache_dims (blank : TCOD_ConsoleTile) (context : TCOD_RendererXterm)
    (F : TCOD_Console) (hr : context.wf) :
    (ensure_cache blank context F).w = F.w ∧ (ensure_cache blank context F).h = F.h ∧
      (ensure_cache blank context F).tiles.length = F.w * F.h := by
  have hs : (sentinel_cache blank F.w F.h).w = F.w ∧ (sentinel_cache blank F.w F.h).h = F.h ∧
      (sentinel_cache blank F.w F.h).tiles.length = F.w * F.h := by
    simp [sentinel_cache]
  cases hc : context.cache with
  | none =>
    have : context = fresh := by cases context; simp only [fresh] at *; rw [hc]
    rw [this, ensure_cache_fresh]; exact hs
  | some c =>
    by_cases hd : c.w ≠ F.w ∨ c.h ≠ F.h
    · rw [ensure_cache_resize blank context c F hc hd]; exact hs
    · have hw : c.w = F.w := by
        by_cases h : c.w = F.w
        · exact h
        · exact absurd (Or.inl h) hd
      have hh : c.h = F.h := by
        by_cases h : c.h = F.h
        · exact h
        · exact absurd (Or.inr h) hd
      rw [ensure_cache_keep blank context c F hc hw hh]
      have hwf : c.wf := by
        have := hr
        unfold TCOD_RendererXterm.wf at this
        rw [hc] at this
        exact this
      unfold TCOD_Console.wf at hwf
      rw [hwf, hw, hh]
      exact ⟨rfl, rfl, rfl⟩

/-- The invariant of the renderer data is kept by `xterm_present`. -/
theorem xterm_present_wf (blank : TCOD_ConsoleTile) (context : TCOD_RendererXterm)
    (F : TCOD_Console) (hr : context.wf) : (xterm_present blank context F).1.wf := by
  have hd := ensure_cache_dims blank context F hr
  unfold TCOD_RendererXterm.wf
  rw [xterm_present_cache]
  simp only [TCOD_Console.wf]
  rw [scan_rows_length, hd.2.2, hd.1, hd.2.1]

/-- Claim C11. After every `xterm_present` call on a frame, from any well-formed
renderer state (no cache, a cache of the size of the frame, a cache of another
size), the cache has exactly the width and the height of the frame, `w * h` tiles,
and at every position `(x, y)` the cached tile equals the tile of the frame in
character, foreground `r`, `g`, `b` and background `r`, `g`, `b`. -/
theorem C11_cache_copies_frame (blank : TCOD_ConsoleTile) (context : TCOD_RendererXterm)
    (F : TCOD_Console) (hr : context.wf) :
    ∃ c, (xterm_present blank context F).1.cache = some c ∧
      c.w = F.w ∧ c.h = F.h ∧ c.tiles.length = F.w * F.h ∧
      ∀ x y, x < F.w → y < F.h →
        (c.tile x y).ch = (F.tile x y).ch ∧
          (c.tile x y).fg.r = (F.tile x y).fg.r ∧ (c.tile x y).fg.g = (F.tile x y).fg.g ∧
          (c.tile x y).fg.b = (F.tile x y).fg.b ∧
          (c.tile x y).bg.r = (F.tile x y).bg.r ∧ (c.tile x y).bg.g = (F.tile x y).bg.g ∧
          (c.tile x y).bg.b = (F.tile x y).bg.b := by
  have hd := ensure_cache_dims blank context F hr
  refine ⟨_, xterm_present_cache blank context F, hd.1, hd.2.1, ?_, ?_⟩
  · simp only []
    rw [scan_rows_length, hd.2.2]
  · intro x y hx hy
    have h := scan_rows_unchanged_after F (ensure_cache blank context F).tiles hd.2.2 x y hx hy
    rw [tile_unchanged_iff] at h
    simp only [TCOD_Console.tile, hd.1]
    exact ⟨h.1.symm, h.2.1.symm, h.2.2.1.symm, h.2.2.2.1.symm, h.2.2.2.2.1.symm,
      h.2.2.2.2.2.1.symm, h.2.2.2.2.2.2.symm⟩

/-- Witness for C11: `[A, C, B]` presented to a renderer whose cache holds
`[A, A, B]`; afterwards the cache is `[A, C, B]`. -/
theorem C11_witness :
    after_two_presents.wf ∧
      (xterm_present blank_tile after_two_presents frame_ACB).1.cache = some frame_ACB ∧
      ∃ c, (xterm_present blank_tile after_two_presents frame_ACB).1.cache = some c ∧
        c.w = frame_ACB.w ∧ c.h = frame_ACB.h ∧ c.tiles.length = frame_ACB.w * frame_ACB.h ∧
        ∀ x y, x < frame_ACB.w → y < frame_ACB.h →
          (c.tile x y).ch = (frame_ACB.tile x y).ch ∧
            (c.tile x y).fg.r = (frame_ACB.tile x y).fg.r ∧
            (c.tile x y).fg.g = (frame_ACB.tile x y).fg.g ∧
            (c.tile x y).fg.b = (frame_ACB.tile x y).fg.b ∧
            (c.tile x y).bg.r = (frame_ACB.tile x y).bg.r ∧
            (c.tile x y).bg.g = (frame_ACB.tile x y).bg.g ∧
            (c.tile x y).bg.b = (frame_ACB.tile x y).bg.b :=
  ⟨by decide, by decide,
    C11_cache_copies_frame blank_tile after_two_presents frame_ACB (by decide)⟩

/-! ## The output as the reference stream -/

theorem stream_cons (e : Emit) (es : List Emit) : stream (e :: es) = e.bytes ++ stream es := rfl

theorem stream_append (a b : List Emit) : stream (a ++ b) = stream a ++ stream b := by
  unfold stream
  rw [List.map_append, List.flatten_append]

theorem stream_flatten (rows : List (List Emit)) :
    stream rows.flatten = (rows.map stream).flatten := by
  induction rows with
  | nil => rfl
  | cons r rows ih =>
    rw [List.flatten_cons, stream_append, ih, List.map_cons, List.flatten_cons]

/-- The events of a stretch of columns are those of its changed tiles, in order. -/
theorem ref_cols_flatten (tile prev : Nat → TCOD_ConsoleTile) (n : Nat) :
    ∀ (x : Nat),
      (ref_cols tile prev n x (skip_before tile prev x)).flatten =
        (((List.range' x n).filter (fun x' => !tile_unchanged (tile x') (prev x'))).map
          (fun x' => tile_events (skip_before tile prev x') (tile x'))).flatten := by
  induction n with
  | zero => intro x; rfl
  | succ n ih =>
    intro x
    rw [List.range'_succ]
    by_cases hu : tile_unchanged (tile x) (prev x) = true
    · have hs : skip_before tile prev x + 1 = skip_before tile prev (x + 1) := by
        rw [skip_before_succ, if_pos hu]
      simp only [ref_cols, if_pos hu, List.flatten_cons, List.nil_append]
      rw [hs, ih (x + 1), List.filter_cons_of_neg (by simp [hu])]
    · have hs : 0 = skip_before tile prev (x + 1) := by
        rw [skip_before_succ, if_neg hu]
      simp only [ref_cols, if_neg hu, List.flatten_cons]
      rw [hs, ih (x + 1), List.filter_cons_of_pos (by simp [hu]), List.map_cons,
        List.flatten_cons]

/-- The output of `xterm_present` is the reference output. -/
theorem xterm_present_eq_ref (blank : TCOD_ConsoleTile) (context : TCOD_RendererXterm)
    (console : TCOD_Console) :
    (xterm_present blank context console).2 = ref_present blank context console := by
  rw [xterm_present_out_rows]
  unfold ref_present ref_row
  congr 2
  apply List.map_congr_left
  intro y _
  have h : (ref_cols (row_of console.w console.tiles y) (cache_row blank context console y)
      console.w 0 0).flatten =
      (((List.range' 0 console.w).filter (fun x' =>
        !tile_unchanged (row_of console.w console.tiles y x')
          (cache_row blank context console y x'))).map
        (fun x' =>
          tile_events
            (skip_before (row_of console.w console.tiles y) (cache_row blank context console y) x')
            (row_of console.w console.tiles y x'))).flatten :=
    ref_cols_flatten (row_of console.w console.tiles y) (cache_row blank context console y)
      console.w 0
  rw [h, ← List.range_eq_range']
  rfl

/-- The glyph calls among the events of changed tiles: one per tile, in order. -/
theorem glyphs_of_tile_events (k : Nat → Nat) (t : Nat → TCOD_ConsoleTile) (l : List Nat) :
    ((l.map (fun x => tile_events (k x) (t x))).flatten).filter Emit.isGlyph =
      l.map (fun x => glyph_of (t x)) := by
  induction l with
  | nil => rfl
  | cons a l ih =>
    rw [List.map_cons, List.flatten_cons, List.filter_append, ih, tile_events_glyphs]
    rfl

/-- The glyph calls of the reference output are the glyphs of the changed tiles in
row-major order. -/
theorem ref_present_glyphs (blank : TCOD_ConsoleTile) (context : TCOD_RendererXterm)
    (console : TCOD_Console) :
    (ref_present blank context console).filter Emit.isGlyph =
      (changed_tiles blank context console).map (fun p => glyph_of (console.tile p.1 p.2)) := by
  unfold ref_present changed_tiles
  rw [List.filter_cons_of_neg (by simp [Emit.isGlyph])]
  generalize List.range console.h = ys
  induction ys with
  | nil => rfl
  | cons y ys ih =>
    rw [List.map_cons, List.flatten_cons, List.filter_append, ih, List.map_cons,
      List.flatten_cons, List.map_append]
    congr 1
    rw [List.filter_cons_of_neg (by simp [Emit.isGlyph])]
    unfold ref_row
    rw [glyphs_of_tile_events, List.map_map]
    rfl

/-- The number of glyph calls is the number of changed tiles. -/
theorem glyph_count_eq_changed (blank : TCOD_ConsoleTile) (context : TCOD_RendererXterm)
    (F : TCOD_Console) :
    (xterm_present blank context F).2.countP Emit.isGlyph = changed_count blank context F := by
  rw [xterm_present_eq_ref, List.countP_eq_length_filter, ref_present_glyphs, List.length_map]
  rfl

/-- Claim C14. For every cache state and frame the events of `xterm_present` are the
reference events: the cursor-hide call first, then for each row `y = 0 .. h - 1` in
ascending order the row-position call followed, for each tile of the row that
differs from the cache taken left to right, by an optional skip and the glyph of
the tile; the byte stream is the corresponding concatenation; the glyph calls are
those of the changed tiles in row-major order, and their number is the number of
changed tiles. -/
theorem C14_output_is_reference_stream (blank : TCOD_ConsoleTile)
    (context : TCOD_RendererXterm) (F : TCOD_Console) :
    (xterm_present blank context F).2 = ref_present blank context F ∧
      stream (xterm_present blank context F).2 =
        str "\x1b[?25l" ++
          ((List.range F.h).map (fun y =>
            (str "\x1b[" ++ dec y ++ str ";0H") ++ stream (ref_row blank context F y))).flatten ∧
      (xterm_present blank context F).2.filter Emit.isGlyph =
        (changed_tiles blank context F).map (fun p => glyph_of (F.tile p.1 p.2)) ∧
      (xterm_present blank context F).2.countP Emit.isGlyph = changed_count blank context F := by
  have h := xterm_present_eq_ref blank context F
  rw [h]
  refine ⟨rfl, ?_, ref_present_glyphs blank context F, ?_⟩
  · unfold ref_present
    rw [stream_cons, stream_flatten, List.map_map]
    rfl
  · rw [List.countP_eq_length_filter, ref_present_glyphs, List.length_map]
    rfl

/-! ## Bytes and the number of changed tiles -/

/-- Counterexample to C13 as stated: against the cache `A` on `(1, 1, 1)`, the frame
with `A` white on white and the frame with `A` black on black both have one changed
tile, and the first output is 49 bytes long, the second 37. -/
theorem C13_counterexample :
    changed_count blank_tile ⟨some ⟨1, 1, [⟨65, ⟨1, 1, 1⟩, ⟨1, 1, 1⟩⟩]⟩⟩
        ⟨1, 1, [⟨65, white, white⟩]⟩ = 1 ∧
      changed_count blank_tile ⟨some ⟨1, 1, [⟨65, ⟨1, 1, 1⟩, ⟨1, 1, 1⟩⟩]⟩⟩
        ⟨1, 1, [⟨65, black, black⟩]⟩ = 1 ∧
      (stream (xterm_present blank_tile ⟨some ⟨1, 1, [⟨65, ⟨1, 1, 1⟩, ⟨1, 1, 1⟩⟩]⟩⟩
        ⟨1, 1, [⟨65, white, white⟩]⟩).2).length = 49 ∧
      (stream (xterm_present blank_tile ⟨some ⟨1, 1, [⟨65, ⟨1, 1, 1⟩, ⟨1, 1, 1⟩⟩]⟩⟩
        ⟨1, 1, [⟨65, black, black⟩]⟩).2).length = 37 := by
  decide

/-- A frame without changed tile has empty reference rows. -/
theorem ref_row_of_no_change (blank : TCOD_ConsoleTile) (context : TCOD_RendererXterm)
    (F : TCOD_Console) (h0 : changed_count blank context F = 0) (y : Nat)
    (hy : y ∈ List.range F.h) : ref_row blank context F y = [] := by
  unfold changed_count at h0
  have hnil : changed_tiles blank context F = [] := List.length_eq_zero.1 h0
  unfold changed_tiles at hnil
  rw [List.flatten_eq_nil_iff] at hnil
  have := hnil _ (List.mem_map.2 ⟨y, hy, rfl⟩)
  rw [List.map_eq_nil_iff] at this
  unfold ref_row
  rw [this]
  rfl

theorem stream_rows_length_le (ys : List Nat) (f g : Nat → List Emit)
    (hf : ∀ y ∈ ys, f y = []) :
    (stream ((ys.map (fun y => Emit.rowPos y :: f y)).flatten)).length ≤
      (stream ((ys.map (fun y => Emit.rowPos y :: g y)).flatten)).length := by
  induction ys with
  | nil => exact Nat.le_refl _
  | cons y ys ih =>
    have ih2 := ih (fun y' hy' => hf y' (List.mem_cons_of_mem _ hy'))
    rw [List.map_cons, List.flatten_cons, List.map_cons, List.flatten_cons, stream_append,
      stream_append, List.length_append, List.length_append, hf y (List.mem_cons_self _ _),
      stream_cons, stream_cons, List.length_append, List.length_append]
    have : (stream ([] : List Emit)).length = 0 := rfl
    omega

/-- Claim C13, amended. For every cache state and frames `A` and `B` of the same
height: the number of glyph calls is the number of changed tiles, hence monotonic in
it; and when no tile of `A` differs from the cache, the output for `A` is at most as
long in bytes as the output for `B`. -/
theorem C13_glyphs_monotonic_bytes_minimal (blank : TCOD_ConsoleTile)
    (context : TCOD_RendererXterm) (A B : TCOD_Console) (hh : A.h = B.h) :
    (xterm_present blank context A).2.countP Emit.isGlyph = changed_count blank context A ∧
      (xterm_present blank context B).2.countP Emit.isGlyph = changed_count blank context B ∧
      (changed_count blank context A ≤ changed_count blank context B →
        (xterm_present blank context A).2.countP Emit.isGlyph ≤
          (xterm_present blank context B).2.countP Emit.isGlyph) ∧
      (changed_count blank context A = 0 →
        (stream (xterm_present blank context A).2).length ≤
          (stream (xterm_present blank context B).2).length) := by
  have hA := (glyph_count_eq_changed blank context A)
  have hB := (glyph_count_eq_changed blank context B)
  refine ⟨hA, hB, fun h => by rw [hA, hB]; exact h, ?_⟩
  intro h0
  rw [xterm_present_eq_ref, xterm_present_eq_ref]
  unfold ref_present
  rw [stream_cons, stream_cons, List.length_append, List.length_append, hh]
  have := stream_rows_length_le (List.range B.h) (fun y => ref_row blank context A y)
    (fun y => ref_row blank context B y)
    (fun y hy => ref_row_of_no_change blank context A h0 y (by rw [hh]; exact hy))
  beta_reduce at this
  omega

/-- Witness for C13, amended: the cache `[A, A, B]`, the frame `[A, A, B]` with no
changed tile and the frame `[A, C, B]` with one. -/
theorem C13_witness :
    frame_AAB.h = frame_ACB.h ∧ changed_count blank_tile after_two_presents frame_AAB = 0 ∧
      (stream (xterm_present blank_tile after_two_presents frame_AAB).2).length ≤
        (stream (xterm_present blank_tile after_two_presents frame_ACB).2).length :=
  ⟨by decide, by decide,
    (C13_glyphs_monotonic_bytes_minimal blank_tile after_two_presents frame_AAB frame_ACB
      (by decide)).2.2.2 (by decide)⟩

/-! ## The encoder on every integer -/

theorem utf8_canonical_length (n : Nat) :
    1 ≤ (utf8_canonical n).length ∧ (utf8_canonical n).length ≤ 4 := by
  unfold utf8_canonical
  split_ifs <;> simp

/-- The canonical bytes of a value other than zero hold no zero byte: `%s` writes all
of them. -/
theorem cstr_canonical (n : Nat) (hn : n ≠ 0) :
    cstr (utf8_canonical n ++ [0]) = utf8_canonical n := by
  unfold utf8_canonical cstr
  split_ifs <;> simp [List.takeWhile_cons, hn]

/-- Counterexample to C12 as stated: for `v = 0` the byte stored is itself zero, so
`%s` writes nothing; and for the surrogate `0xD800` the three bytes written are not
well-formed UTF-8. -/
theorem C12_counterexample :
    ucs4_to_utf8 0 = [0, 0] ∧ cstr (ucs4_to_utf8 0) = [] ∧
      cstr (ucs4_to_utf8 0xD800) = [0xED, 0xA0, 0x80] ∧
      utf8_well_formed (cstr (ucs4_to_utf8 0xD800)) = false := by
  decide

/-- Claim C12, amended. For every integer `v`, `ucs4_to_utf8 v` is defined and stores
between one and four bytes followed by the terminating zero; unless `v` is `0` these
bytes are what `%s` writes, and unless `v` is a surrogate (`0xD800..0xDFFF`) they are
a well-formed UTF-8 sequence. -/
theorem C12_encoder_output (v : Int) :
    (ucs4_to_utf8 v = encoded v ++ [0] ∧ 1 ≤ (encoded v).length ∧ (encoded v).length ≤ 4) ∧
      (v ≠ 0 → cstr (ucs4_to_utf8 v) = encoded v) ∧
      (¬ (0xD800 ≤ v ∧ v ≤ 0xDFFF) → utf8_well_formed (encoded v) = true) := by
  by_cases hr : 0 ≤ v ∧ v ≤ 0x10FFFF
  · have hc := ucs4_to_utf8_in_range v hr.1 hr.2
    have he : encoded v = utf8_canonical v.toNat := by
      unfold encoded; rw [hc, List.dropLast_concat]
    have hl := utf8_canonical_length v.toNat
    rw [he]
    refine ⟨⟨hc, hl.1, hl.2⟩, ?_, ?_⟩
    · intro hv
      rw [hc]
      exact cstr_canonical v.toNat (by omega)
    · intro hs
      unfold utf8_well_formed
      rw [utf8_decode_canonical v.toNat (by omega) (by omega)]
      rfl
  · have hq : ucs4_to_utf8 v = [63, 0] := by
      by_cases hn : v < 0
      · exact ucs4_to_utf8_of_neg v hn
      · exact ucs4_to_utf8_of_large v (by omega)
    have he : encoded v = [63] := by unfold encoded; rw [hq]; rfl
    rw [he, hq]
    exact ⟨⟨rfl, by decide, by decide⟩, fun _ => by decide, fun _ => by decide⟩

/-- Witness for C12, amended: the euro sign. -/
theorem C12_witness :
    ((0x20AC : Int) ≠ 0 ∧ ¬ ((0xD800 : Int) ≤ 0x20AC ∧ (0x20AC : Int) ≤ 0xDFFF)) ∧
      cstr (ucs4_to_utf8 0x20AC) = encoded 0x20AC ∧
      utf8_well_formed (encoded 0x20AC) = true :=
  ⟨⟨by decide, by decide⟩, (C12_encoder_output 0x20AC).2.1 (by decide),
    (C12_encoder_output 0x20AC).2.2 (by decide)⟩

/-! ## The glyph sequence -/

/-- Evaluation for C16 at the code points the claim names: the mask `0x10FFFF`
clears bits 16 to 19.  `0x1F600` becomes `0xF600` and `0x10000` becomes `0`; a
changed tile holding `0x1F600` is written as `EF 98 80`, the encoding of `U+F600`,
whereas `ucs4_to_utf8 0x1F600` is `F0 9F 98 80`; a changed tile holding `0x10000` has
no character byte at all. -/
theorem C16_failing_input :
    int_and 0x1F600 0x10FFFF = 0xF600 ∧ int_and 0x10000 0x10FFFF = 0 ∧
      (events_at blank_tile fresh ⟨1, 1, [⟨0x1F600, white, black⟩]⟩ 0 0).map Emit.char_bytes =
        [[0xEF, 0x98, 0x80]] ∧
      encoded 0x1F600 = [0xF0, 0x9F, 0x98, 0x80] ∧
      (events_at blank_tile fresh ⟨1, 1, [⟨0x10000, white, black⟩]⟩ 0 0).map Emit.char_bytes =
        [[]] ∧
      encoded 0x10000 = [0xF0, 0x90, 0x80, 0x80] := by
  decide

/-! ## Column alignment -/

theorem skip_sum_append (a b : List Emit) : skip_sum (a ++ b) = skip_sum a + skip_sum b := by
  unfold skip_sum
  rw [List.map_append, List.sum_append]

theorem tile_events_dropLast (k : Nat) (t : TCOD_ConsoleTile) :
    (tile_events k t).dropLast = if k ≠ 0 then [Emit.skip k] else [] := by
  unfold tile_events
  rw [List.dropLast_concat]

theorem tile_events_eq (k : Nat) (t : TCOD_ConsoleTile) :
    tile_events k t = (tile_events k t).dropLast ++ [glyph_of t] := by
  rw [tile_events_dropLast]
  rfl

/-- A changed tile moves the cursor by the pending count plus one. -/
theorem tile_events_advance (k : Nat) (t : TCOD_ConsoleTile) :
    skip_sum (tile_events k t) + (tile_events k t).countP Emit.isGlyph = k + 1 := by
  unfold tile_events
  by_cases hk : k ≠ 0
  · rw [if_pos hk]
    simp [skip_sum, Emit.skip_count, glyph_of, Emit.isGlyph, List.countP_cons]
  · rw [if_neg hk]
    have : k = 0 := by omega
    subst this
    simp [skip_sum, Emit.skip_count, glyph_of, Emit.isGlyph, List.countP_cons]

/-- After `j` columns the columns moved plus the pending count is `j` more than the
count the stretch was entered with. -/
theorem ref_cols_advance (tile prev : Nat → TCOD_ConsoleTile) (n : Nat) :
    ∀ (x j : Nat), j ≤ n →
      skip_sum ((ref_cols tile prev n x (skip_before tile prev x)).take j).flatten +
          (((ref_cols tile prev n x (skip_before tile prev x)).take j).flatten).countP
            Emit.isGlyph +
          skip_before tile prev (x + j) =
        skip_before tile prev x + j := by
  induction n with
  | zero =>
    intro x j hj
    have : j = 0 := by omega
    subst this
    simp [ref_cols, skip_sum]
  | succ n ih =>
    intro x j hj
    cases j with
    | zero => simp [skip_sum]
    | succ j =>
      have e : x + (j + 1) = x + 1 + j := by omega
      have hrec := ih (x + 1) j (by omega)
      by_cases hu : tile_unchanged (tile x) (prev x) = true
      · have hs : skip_before tile prev (x + 1) = skip_before tile prev x + 1 := by
          rw [skip_before_succ, if_pos hu]
        simp only [ref_cols, if_pos hu, List.take_succ_cons, List.flatten_cons, List.nil_append]
        rw [← hs, e]
        omega
      · have hs : skip_before tile prev (x + 1) = 0 := by
          rw [skip_before_succ, if_neg hu]
        have ha := tile_events_advance (skip_before tile prev x) (tile x)
        simp only [ref_cols, if_neg hu, List.take_succ_cons, List.flatten_cons]
        rw [skip_sum_append, List.countP_append, e]
        rw [hs] at hrec
        omega

/-- Claim C17. For every `xterm_present` call and every tile `(x, y)` for which a
glyph is emitted, the glyph is the last event of the iteration for the tile, and the
sum of the counts of the skip calls emitted earlier in row `y`, after the
row-position call, plus the number of glyph calls emitted earlier in row `y` equals
`x`. -/
theorem C17_column_alignment (blank : TCOD_ConsoleTile) (context : TCOD_RendererXterm)
    (F : TCOD_Console) (x y : Nat) (hx : x < F.w) (hy : y < F.h)
    (hd : tile_unchanged (F.tile x y) (cache_row blank context F y x) = false) :
    events_at blank context F x y =
        (events_at blank context F x y).dropLast ++ [glyph_of (F.tile x y)] ∧
      skip_sum (row_before blank context F x y) +
        (row_before blank context F x y).countP Emit.isGlyph = x := by
  have hu : ¬ tile_unchanged (F.tile x y) (cache_row blank context F y x) = true := by
    rw [hd]; exact Bool.false_ne_true
  have he := events_at_eq blank context F x y hx hy
  rw [if_neg hu] at he
  constructor
  · rw [he]; exact tile_events_eq _ _
  · unfold row_before
    rw [present_trace_getD blank context F y hy, he, tile_events_dropLast, List.drop_one,
      List.tail_cons, skip_sum_append, List.countP_append]
    have h := ref_cols_advance (row_of F.w F.tiles y) (cache_row blank context F y) F.w 0 x
      (by omega)
    simp only [Nat.zero_add] at h
    have h0 : skip_before (row_of F.w F.tiles y) (cache_row blank context F y) 0 = 0 := rfl
    rw [h0] at h
    by_cases hk : skip_before (row_of F.w F.tiles y) (cache_row blank context F y) x ≠ 0
    · rw [if_pos hk]
      simp only [skip_sum, List.map_cons, List.map_nil, List.sum_cons, List.sum_nil,
        Emit.skip_count, List.countP_cons, List.countP_nil, Emit.isGlyph, Bool.false_eq_true,
        if_false] at h ⊢
      omega
    · rw [if_neg hk]
      simp only [skip_sum, List.map_nil, List.sum_nil, List.countP_nil] at h ⊢
      omega

/-- Witness for C17: the tile `C` at column 1 of `[A, C, B]` presented after
`[A, A, B]`; before its glyph the row has the skip by one. -/
theorem C17_witness :
    (1 < frame_ACB.w ∧ 0 < frame_ACB.h ∧
        tile_unchanged (frame_ACB.tile 1 0)
          (cache_row blank_tile after_two_presents frame_ACB 0 1) = false) ∧
      row_before blank_tile after_two_presents frame_ACB 1 0 = [Emit.skip 1] ∧
      skip_sum (row_before blank_tile after_two_presents frame_ACB 1 0) +
        (row_before blank_tile after_two_presents frame_ACB 1 0).countP Emit.isGlyph = 1 :=
  ⟨⟨by decide, by decide, by decide⟩, by decide,
    (C17_column_alignment blank_tile after_two_presents frame_ACB 1 0 (by decide) (by decide)
      (by decide)).2⟩

/-! ## Terminal rows -/

/-- Evaluation for C18: a frame of height two.  The rows are positioned with
`ESC[0;0H` and `ESC[1;0H`, and under the convention that a row parameter of 0 is
treated as 1 both address terminal row 1. -/
theorem C18_failing_input :
    (xterm_present blank_tile fresh ⟨1, 2, [⟨65, white, black⟩, ⟨66, white, black⟩]⟩).2 =
        [Emit.hideCursor, Emit.rowPos 0, Emit.glyph white black [65, 0], Emit.rowPos 1,
          Emit.glyph white black [66, 0]] ∧
      (Emit.rowPos 0).bytes = str "\x1b[0;0H" ∧ (Emit.rowPos 1).bytes = str "\x1b[1;0H" ∧
      (0 : Nat) ≠ 1 ∧ effective_row 0 = 1 ∧ effective_row 1 = 1 := by
  decide

/-! ## Skip sequences -/

/-- The pending count at column `x` is the length of the maximal run of unchanged
tiles that ends just before `x`. -/
theorem skip_before_run (tile prev : Nat → TCOD_ConsoleTile) :
    ∀ x, skip_before tile prev x ≤ x ∧
      (∀ j, j < skip_before tile prev x →
        tile_unchanged (tile (x - 1 - j)) (prev (x - 1 - j)) = true) ∧
      (skip_before tile prev x < x →
        tile_unchanged (tile (x - 1 - skip_before tile prev x))
          (prev (x - 1 - skip_before tile prev x)) = false) := by
  intro x
  induction x with
  | zero =>
    refine ⟨Nat.le_refl _, ?_, ?_⟩
    · intro j hj; exact absurd hj (Nat.not_lt_zero _)
    · intro h; exact absurd h (Nat.not_lt_zero _)
  | succ x ih =>
    by_cases hu : tile_unchanged (tile x) (prev x) = true
    · rw [skip_before_succ, if_pos hu]
      refine ⟨by omega, ?_, ?_⟩
      · intro j hj
        cases j with
        | zero =>
          have e : x + 1 - 1 - 0 = x := by omega
          rw [e]; exact hu
        | succ j =>
          have e : x + 1 - 1 - (j + 1) = x - 1 - j := by omega
          rw [e]; exact ih.2.1 j (by omega)
      · intro h
        have e : x + 1 - 1 - (skip_before tile prev x + 1) = x - 1 - skip_before tile prev x := by
          omega
        rw [e]; exact ih.2.2 (by omega)
    · rw [skip_before_succ, if_neg hu]
      refine ⟨by omega, ?_, ?_⟩
      · intro j hj; exact absurd hj (Nat.not_lt_zero _)
      · intro _
        have e : x + 1 - 1 - 0 = x := by omega
        rw [e]
        exact Bool.eq_false_iff.2 hu

theorem skips_ok_append (w : Nat) (a b : List Emit) (ha : skips_ok w a = true)
    (hb : skips_ok w b = true) : skips_ok w (a ++ b) = true := by
  induction a with
  | nil => exact hb
  | cons e a ih =>
    rw [List.cons_append]
    simp only [skips_ok, Bool.and_eq_true] at ha ⊢
    refine ⟨?_, ih ha.2⟩
    cases e with
    | skip n =>
      cases a with
      | nil => simp at ha
      | cons g a => simpa using ha.1
    | hideCursor => rfl
    | rowPos y => rfl
    | glyph fg bg u => rfl
    | teardown => rfl
    | setup => rfl
    | title t => rfl

theorem skips_ok_flatten (w : Nat) (rows : List (List Emit))
    (h : ∀ r ∈ rows, skips_ok w r = true) : skips_ok w rows.flatten = true := by
  induction rows with
  | nil => rfl
  | cons r rows ih =>
    rw [List.flatten_cons]
    exact skips_ok_append w r _ (h r (List.mem_cons_self _ _))
      (ih (fun r' hr' => h r' (List.mem_cons_of_mem _ hr')))

theorem skips_ok_tile_events (w k : Nat) (t : TCOD_ConsoleTile) (hk : k ≤ w - 1) :
    skips_ok w (tile_events k t) = true := by
  unfold tile_events
  by_cases h0 : k ≠ 0
  · rw [if_pos h0]
    simp [skips_ok, glyph_of, Emit.isGlyph]
    omega
  · rw [if_neg h0]
    simp [skips_ok, glyph_of]

/-- The events of a reference row satisfy the skip conditions. -/
theorem skips_ok_ref_row (blank : TCOD_ConsoleTile) (context : TCOD_RendererXterm)
    (F : TCOD_Console) (y : Nat) : skips_ok F.w (ref_row blank context F y) = true := by
  unfold ref_row
  apply skips_ok_flatten
  intro r hr
  rw [List.mem_map] at hr
  obtain ⟨x, hx, rfl⟩ := hr
  rw [List.mem_filter, List.mem_range] at hx
  have := (skip_before_run (row_of F.w F.tiles y) (cache_row blank context F y) x).1
  exact skips_ok_tile_events _ _ _ (by omega)

/-- The skip of an iteration, if there is one: its count is the pending count. -/
theorem skip_mem_tile_events (k n : Nat) (t : TCOD_ConsoleTile)
    (h : Emit.skip n ∈ tile_events k t) : k ≠ 0 ∧ n = k := by
  unfold tile_events at h
  by_cases hk : k ≠ 0
  · rw [if_pos hk] at h
    simp [glyph_of] at h
    exact ⟨hk, h⟩
  · rw [if_neg hk] at h
    simp [glyph_of] at h

/-- Claim C19. Every skip call emitted by `xterm_present` has a count `n` with
`1 ≤ n ≤ w - 1` and is immediately followed by a glyph call; it is emitted in the
iteration of a changed tile `(x, y)`, directly before the glyph of that tile, and
`n` is the length of the maximal run of unchanged tiles immediately to the left of
that tile. -/
theorem C19_skip_sequences (blank : TCOD_ConsoleTile) (context : TCOD_RendererXterm)
    (F : TCOD_Console) :
    skips_ok F.w (xterm_present blank context F).2 = true ∧
      (∀ n, Emit.skip n ∈ (xterm_present blank context F).2 →
        ∃ x y, x < F.w ∧ y < F.h ∧ Emit.skip n ∈ events_at blank context F x y) ∧
      (∀ x y n, x < F.w → y < F.h → Emit.skip n ∈ events_at blank context F x y →
        events_at blank context F x y = [Emit.skip n, glyph_of (F.tile x y)] ∧
          tile_unchanged (F.tile x y) (cache_row blank context F y x) = false ∧
          1 ≤ n ∧ n ≤ F.w - 1 ∧ n ≤ x ∧
          (∀ j, j < n →
            tile_unchanged (F.tile (x - 1 - j) y)
              (cache_row blank context F y (x - 1 - j)) = true) ∧
          (n < x →
            tile_unchanged (F.tile (x - 1 - n) y)
              (cache_row blank context F y (x - 1 - n)) = false)) := by
  refine ⟨?_, ?_, ?_⟩
  · rw [xterm_present_eq_ref]
    unfold ref_present
    have hrows : skips_ok F.w
        ((List.range F.h).map (fun y => Emit.rowPos y :: ref_row blank context F y)).flatten
          = true := by
      apply skips_ok_flatten
      intro r hr
      rw [List.mem_map] at hr
      obtain ⟨y, _, rfl⟩ := hr
      have := skips_ok_ref_row blank context F y
      simp only [skips_ok, Bool.true_and]
      exact this
    simp only [skips_ok, Bool.true_and]
    exact hrows
  · intro n hn
    rw [xterm_present_eq_ref] at hn
    unfold ref_present at hn
    rw [List.mem_cons] at hn
    rcases hn with hn | hn
    · exact absurd hn (by simp)
    · rw [List.mem_flatten] at hn
      obtain ⟨r, hr, hnr⟩ := hn
      rw [List.mem_map] at hr
      obtain ⟨y, hy, rfl⟩ := hr
      rw [List.mem_range] at hy
      rw [List.mem_cons] at hnr
      rcases hnr with hnr | hnr
      · exact absurd hnr (by simp)
      · unfold ref_row at hnr
        rw [List.mem_flatten] at hnr
        obtain ⟨c, hc, hnc⟩ := hnr
        rw [List.mem_map] at hc
        obtain ⟨x, hxm, rfl⟩ := hc
        rw [List.mem_filter, List.mem_range] at hxm
        refine ⟨x, y, hxm.1, hy, ?_⟩
        have hu : ¬ tile_unchanged (F.tile x y) (cache_row blank context F y x) = true := by
          have := hxm.2
          unfold differs at this
          simpa using this
        rw [events_at_eq blank context F x y hxm.1 hy, if_neg hu]
        exact hnc
  · intro x y n hx hy hn
    have he := events_at_eq blank context F x y hx hy
    by_cases hu : tile_unchanged (F.tile x y) (cache_row blank context F y x) = true
    · rw [if_pos hu] at he
      rw [he] at hn
      exact absurd hn (List.not_mem_nil _)
    · rw [if_neg hu] at he
      rw [he] at hn
      obtain ⟨hk, hnk⟩ := skip_mem_tile_events _ _ _ hn
      have hrun := skip_before_run (row_of F.w F.tiles y) (cache_row blank context F y) x
      rw [← hnk] at hrun hk he
      refine ⟨?_, Bool.eq_false_iff.2 hu, by omega, by omega, hrun.1, hrun.2.1, hrun.2.2⟩
      rw [he]
      unfold tile_events
      rw [if_pos hk]
      rfl

/-- Witness for C19: `[A, C, B]` presented after `[A, A, B]`; the skip by one is
emitted in the iteration of the tile at column 1. -/
theorem C19_witness :
    (1 < frame_ACB.w ∧ 0 < frame_ACB.h ∧
        Emit.skip 1 ∈ events_at blank_tile after_two_presents frame_ACB 1 0) ∧
      events_at blank_tile after_two_presents frame_ACB 1 0 =
        [Emit.skip 1, glyph_of (frame_ACB.tile 1 0)] ∧
      skips_ok frame_ACB.w (xterm_present blank_tile after_two_presents frame_ACB).2 = true :=
  ⟨⟨by decide, by decide, by decide⟩,
    ((C19_skip_sequences blank_tile after_two_presents frame_ACB).2.2 1 0 1 (by decide)
      (by decide) (by decide)).1,
    (C19_skip_sequences blank_tile after_two_presents frame_ACB).1⟩

/-! ## Index safety -/

/-- The index `w * y + x` determines `x` and `y` when `x < w`. -/
theorem index_inj (w x y x' y' : Nat) (hx : x < w) (hx' : x' < w)
    (h : w * y + x = w * y' + x') : x = x' ∧ y = y' := by
  have hy : y = y' := by
    rcases Nat.lt_trichotomy y y' with hlt | heq | hgt
    · have h1 : w * (y + 1) ≤ w * y' := Nat.mul_le_mul_left _ hlt
      rw [Nat.mul_succ] at h1
      omega
    · exact heq
    · have h1 : w * (y' + 1) ≤ w * y := Nat.mul_le_mul_left _ hgt
      rw [Nat.mul_succ] at h1
      omega
  subst hy
  exact ⟨by omega, rfl⟩

/-- Claim C20. For every well-formed frame of width `w` and height `h` and every
well-formed renderer state, once the cache has been ensured to the size of the frame,
every index `w * y + x` of the loops (`y < h`, `x < w`) is below `w * h`, which is the
length of the tile array of the frame and of the cache, at the start and after any
part of the loops; so both reads are inside the arrays, and distinct `(x, y)` give
distinct indices. -/
theorem C20_index_safety (blank : TCOD_ConsoleTile) (context : TCOD_RendererXterm)
    (F : TCOD_Console) (hF : F.wf) (hr : context.wf) (x y : Nat) (hx : x < F.w)
    (hy : y < F.h) :
    F.w * y + x < F.w * F.h ∧
      F.tiles.length = F.w * F.h ∧ (ensure_cache blank context F).tiles.length = F.w * F.h ∧
      (∀ n y0 (cache : List TCOD_ConsoleTile), cache.length = F.w * F.h →
        (scan_rows F n y0 cache).1.length = F.w * F.h) ∧
      (∀ n x0 s (cache : List TCOD_ConsoleTile), cache.length = F.w * F.h →
        (scan_cols F y n x0 cache s).1.length = F.w * F.h) ∧
      (∃ t, F.tiles[F.w * y + x]? = some t) ∧
      (∃ t, (ensure_cache blank context F).tiles[F.w * y + x]? = some t) ∧
      (∀ x' y', x' < F.w → y' < F.h → F.w * y + x = F.w * y' + x' → x = x' ∧ y = y') := by
  have hi := index_lt F.w F.h x y hx hy
  have hd := ensure_cache_dims blank context F hr
  have hlen : F.tiles.length = F.w * F.h := hF
  refine ⟨hi, hlen, hd.2.2, ?_, ?_, ?_, ?_, ?_⟩
  · intro n y0 cache hc
    rw [scan_rows_length, hc]
  · intro n x0 s cache hc
    rw [scan_cols_length, hc]
  · exact ⟨F.tiles[F.w * y + x], List.getElem?_eq_getElem (by omega)⟩
  · exact ⟨(ensure_cache blank context F).tiles[F.w * y + x],
      List.getElem?_eq_getElem (by omega)⟩
  · intro x' y' hx' _ h
    exact index_inj F.w x y x' y' hx hx' h

/-- Witness for C20: the last tile of `[A, C, B]` and the cache after two presents. -/
theorem C20_witness :
    (frame_ACB.wf ∧ after_two_presents.wf ∧ 2 < frame_ACB.w ∧ 0 < frame_ACB.h) ∧
      frame_ACB.w * 0 + 2 < frame_ACB.w * frame_ACB.h ∧
      frame_ACB.tiles.length = frame_ACB.w * frame_ACB.h ∧
      (ensure_cache blank_tile after_two_presents frame_ACB).tiles.length =
        frame_ACB.w * frame_ACB.h :=
  ⟨⟨by decide, by decide, by decide, by decide⟩,
    (C20_index_safety blank_tile after_two_presents frame_ACB (by decide) (by decide) 2 0
      (by decide) (by decide)).1,
    (C20_index_safety blank_tile after_two_presents frame_ACB (by decide) (by decide) 2 0
      (by decide) (by decide)).2.1,
    (C20_index_safety blank_tile after_two_presents frame_ACB (by decide) (by decide) 2 0
      (by decide) (by decide)).2.2.1⟩

/-! ## A tile whose background alone changed -/

theorem and_0x10FFFF_of_lt (n : Nat) (h : n < 2 ^ 16) : n &&& 0x10FFFF = n := by
  have hm : ∀ i, i < 16 → (0x10FFFF : Nat).testBit i = true := by decide
  apply Nat.eq_of_testBit_eq
  intro i
  rw [Nat.testBit_and]
  by_cases hi : i < 16
  · rw [hm i hi, Bool.and_true]
  · have hp : n < 2 ^ i := lt_of_lt_of_le h (Nat.pow_le_pow_right (by decide) (by omega))
    rw [Nat.testBit_lt_two_pow hp, Bool.false_and]

/-- The AND of line 136 leaves a character of `[0, 0xFFFF]` as it is. -/
theorem int_and_of_le_0xFFFF (c : Int) (h0 : 0 ≤ c) (h1 : c ≤ 0xFFFF) :
    int_and c 0x10FFFF = c := by
  obtain ⟨n, rfl⟩ := Int.eq_ofNat_of_zero_le h0
  have hn : n < 2 ^ 16 := by norm_num; omega
  unfold int_and
  have hmod : ((n : Int) % 4294967296).toNat = n := by omega
  rw [hmod, and_0x10FFFF_of_lt n hn]
  rfl

/-- For a value of `[1, 0x10FFFF]`, what `%s` writes is all the encoder stored. -/
theorem cstr_eq_encoded (v : Int) (h0 : 1 ≤ v) (h1 : v ≤ 0x10FFFF) :
    cstr (ucs4_to_utf8 v) = encoded v := by
  have hc := ucs4_to_utf8_in_range v (by omega) h1
  unfold encoded
  rw [hc, List.dropLast_concat]
  exact cstr_canonical v.toNat (by omega)

/-- Counterexample to C5 as stated: the cache holds the character `0x200041` white on
black and the frame the same tile on `(1, 0, 0)`, so only the background differs.
The glyph emitted carries `'A'`, whereas the encoding of the character of the tile is
`'?'`.  With the character `0` instead, the glyph carries no character byte, whereas
the encoding of `0` is the byte `0`. -/
theorem C5_counterexample :
    ((⟨1, 1, [⟨0x200041, white, ⟨1, 0, 0⟩⟩]⟩ : TCOD_Console).tile 0 0).ch =
        (cache_row blank_tile (xterm_present blank_tile fresh ⟨1, 1, [⟨0x200041, white, black⟩]⟩).1
          ⟨1, 1, [⟨0x200041, white, ⟨1, 0, 0⟩⟩]⟩ 0 0).ch ∧
      ((⟨1, 1, [⟨0x200041, white, ⟨1, 0, 0⟩⟩]⟩ : TCOD_Console).tile 0 0).fg =
        (cache_row blank_tile (xterm_present blank_tile fresh ⟨1, 1, [⟨0x200041, white, black⟩]⟩).1
          ⟨1, 1, [⟨0x200041, white, ⟨1, 0, 0⟩⟩]⟩ 0 0).fg ∧
      ((⟨1, 1, [⟨0x200041, white, ⟨1, 0, 0⟩⟩]⟩ : TCOD_Console).tile 0 0).bg ≠
        (cache_row blank_tile (xterm_present blank_tile fresh ⟨1, 1, [⟨0x200041, white, black⟩]⟩).1
          ⟨1, 1, [⟨0x200041, white, ⟨1, 0, 0⟩⟩]⟩ 0 0).bg ∧
      (events_at blank_tile (xterm_present blank_tile fresh ⟨1, 1, [⟨0x200041, white, black⟩]⟩).1
          ⟨1, 1, [⟨0x200041, white, ⟨1, 0, 0⟩⟩]⟩ 0 0).map Emit.char_bytes = [[65]] ∧
      encoded 0x200041 = [63] ∧
      (events_at blank_tile (xterm_present blank_tile fresh ⟨1, 1, [⟨0, white, black⟩]⟩).1
          ⟨1, 1, [⟨0, white, ⟨1, 0, 0⟩⟩]⟩ 0 0).map Emit.char_bytes = [[]] ∧
      encoded 0 = [0] := by
  decide

/-- Claim C5, amended. For every renderer state and frame and every tile `(x, y)` of
the frame: the iteration for the tile emits nothing (the tile is skipped) if and only
if character, `fg.r`, `fg.g`, `fg.b`, `bg.r`, `bg.g` and `bg.b` all equal those of
the cache cell; and when character and foreground equal the cached ones while some
channel of the background differs, it emits, after the skip for the pending run if
there is one, exactly one glyph call, with the unchanged foreground, the new
background and the character bytes the renderer writes for the unchanged character,
those of `ucs4_to_utf8` applied to the character after the AND of line 136; for a
character in `[1, 0xFFFF]` these are the encoding of the character itself. -/
theorem C5_skip_iff_all_equal (blank : TCOD_ConsoleTile) (context : TCOD_RendererXterm)
    (F : TCOD_Console) (x y : Nat) (hx : x < F.w) (hy : y < F.h) :
    (events_at blank context F x y = [] ↔
        ((F.tile x y).ch = (cache_row blank context F y x).ch ∧
          (F.tile x y).fg.r = (cache_row blank context F y x).fg.r ∧
          (F.tile x y).fg.g = (cache_row blank context F y x).fg.g ∧
          (F.tile x y).fg.b = (cache_row blank context F y x).fg.b ∧
          (F.tile x y).bg.r = (cache_row blank context F y x).bg.r ∧
          (F.tile x y).bg.g = (cache_row blank context F y x).bg.g ∧
          (F.tile x y).bg.b = (cache_row blank context F y x).bg.b)) ∧
      ((F.tile x y).ch = (cache_row blank context F y x).ch →
        (F.tile x y).fg.r = (cache_row blank context F y x).fg.r →
        (F.tile x y).fg.g = (cache_row blank context F y x).fg.g →
        (F.tile x y).fg.b = (cache_row blank context F y x).fg.b →
        ((F.tile x y).bg.r ≠ (cache_row blank context F y x).bg.r ∨
          (F.tile x y).bg.g ≠ (cache_row blank context F y x).bg.g ∨
          (F.tile x y).bg.b ≠ (cache_row blank context F y x).bg.b) →
        events_at blank context F x y =
            (if skip_before (row_of F.w F.tiles y) (cache_row blank context F y) x ≠ 0 then
              [Emit.skip (skip_before (row_of F.w F.tiles y) (cache_row blank context F y) x)]
            else []) ++
            [Emit.glyph (cache_row blank context F y x).fg (F.tile x y).bg
              (ucs4_to_utf8 (int_and (cache_row blank context F y x).ch 0x10FFFF))] ∧
          (events_at blank context F x y).countP Emit.isGlyph = 1 ∧
          (1 ≤ (cache_row blank context F y x).ch → (cache_row blank context F y x).ch ≤ 0xFFFF →
            ((events_at blank context F x y).filter Emit.isGlyph).map Emit.char_bytes =
              [encoded (cache_row blank context F y x).ch])) := by
  have he := events_at_eq blank context F x y hx hy
  constructor
  · rw [he, ← tile_unchanged_iff]
    by_cases hu : tile_unchanged (F.tile x y) (cache_row blank context F y x) = true
    · rw [if_pos hu]; exact ⟨fun _ => hu, fun _ => rfl⟩
    · rw [if_neg hu]
      exact ⟨fun h => absurd h (tile_events_ne_nil _ _), fun h => absurd h hu⟩
  · intro hch hr hg hb hbg
    have hu : ¬ tile_unchanged (F.tile x y) (cache_row blank context F y x) = true := by
      rw [tile_unchanged_iff]
      intro h
      rcases hbg with h1 | h1 | h1
      · exact h1 h.2.2.2.2.1
      · exact h1 h.2.2.2.2.2.1
      · exact h1 h.2.2.2.2.2.2
    have hfg : (F.tile x y).fg = (cache_row blank context F y x).fg := by
      generalize (F.tile x y).fg = a at hr hg hb
      generalize (cache_row blank context F y x).fg = b at hr hg hb
      cases a; cases b
      simp only at hr hg hb
      rw [hr, hg, hb]
    rw [he, if_neg hu]
    refine ⟨?_, ?_, ?_⟩
    · unfold tile_events glyph_of
      rw [hfg, hch]
    · rw [List.countP_eq_length_filter, tile_events_glyphs]; rfl
    · intro h1 h2
      rw [tile_events_glyphs]
      simp only [glyph_of, List.map_cons, List.map_nil, Emit.char_bytes]
      rw [hch, int_and_of_le_0xFFFF _ (by omega) h2, cstr_eq_encoded _ h1 (by omega)]

/-- Witness for C5, amended: in the 1 by 1 frame holding `A` white on `(1, 0, 0)`,
presented after `A` white on black, only the background differs; the tile is
repainted with `A`. -/
theorem C5_witness :
    (0 < 1 ∧ 0 < 1) ∧
      (events_at blank_tile (xterm_present blank_tile fresh ⟨1, 1, [⟨65, white, black⟩]⟩).1
          ⟨1, 1, [⟨65, white, ⟨1, 0, 0⟩⟩]⟩ 0 0 =
        [Emit.glyph white ⟨1, 0, 0⟩ [65, 0]]) ∧
      ((events_at blank_tile (xterm_present blank_tile fresh ⟨1, 1, [⟨65, white, black⟩]⟩).1
          ⟨1, 1, [⟨65, white, ⟨1, 0, 0⟩⟩]⟩ 0 0).filter Emit.isGlyph).map Emit.char_bytes =
        [[65]] := by
  have h := (C5_skip_iff_all_equal blank_tile
    (xterm_present blank_tile fresh ⟨1, 1, [⟨65, white, black⟩]⟩).1
    ⟨1, 1, [⟨65, white, ⟨1, 0, 0⟩⟩]⟩ 0 0 (by decide) (by decide)).2
    (by decide) (by decide) (by decide) (by decide) (by decide)
  refine ⟨⟨by decide, by decide⟩, ?_, ?_⟩
  · rw [h.1]
    decide
  · rw [h.2.2 (by decide) (by decide)]
    decide

end Xterm
